import Mathlib

/-!
# Verification of the grafik-all GraphQL node model and its textual codec

This file gives a shallow embedding of the two source modules

  * `grafik_all/graphql.py`  — the `GraphQLNode` tree model (construction,
    `add`, `update`, structural equality, gid normalization, serialization), and
  * `grafik_all/parseql.py`  — the tokenizer and recursive-descent parser that
    reconstructs node trees from query text,

and proves / refutes the frozen claims about them.

Python strings are modelled as `List Char` (`Str`). Python dictionaries that
preserve insertion order (`_params`, parser argument maps, keyword argument
dicts, environments) are modelled as association lists with
overwrite-in-place assignment. Python exceptions are modelled with
`Except PyErr`; each distinct `raise` site in the source gets its own
`PyErr` tag. Unicode-dependent predicates of Python (`str.isidentifier`,
`str.isnumeric`, the regex class `\w`, `str.strip`) are modelled on their
ASCII/Latin-1 behaviour, which covers every string the repository and the
claims manipulate.
-/

/-- Python strings, as lists of characters. -/
abbrev Str := List Char

/-- The opening brace character (kept out of string literals). -/
def lbrace : Char := Char.ofNat 123

/-- The closing brace character (kept out of string literals). -/
def rbrace : Char := Char.ofNat 125

/-- Characters stripped by Python `str.strip()` (ASCII/Latin-1 fragment:
space, tab, newline, carriage return, vertical tab, form feed, NEL, NBSP). -/
def isPySpace (c : Char) : Bool :=
  c = ' ' || c = '\t' || c = '\n' || c = '\r' ||
  c = Char.ofNat 11 || c = Char.ofNat 12 || c = Char.ofNat 0x85 || c = Char.ofNat 0xa0

/-- Python `str.strip()`: drop the whitespace on both ends. -/
def stripStr (s : Str) : Str :=
  ((s.dropWhile isPySpace).reverse.dropWhile isPySpace).reverse

/-- Python `str.strip('"')`: drop double quotes on both ends. -/
def stripQuotes (s : Str) : Str :=
  ((s.dropWhile (· = '"')).reverse.dropWhile (· = '"')).reverse

/-- A regex `\w` word character (ASCII fragment). -/
def isWordCh (c : Char) : Bool := c.isAlphanum || c = '_'

/-- Python `str.isidentifier()` (ASCII fragment): non-empty, letter or
underscore first, then letters, digits or underscores. -/
def isIdentStr (s : Str) : Bool :=
  match s with
  | [] => false
  | c :: rest => (c.isAlpha || c = '_') && rest.all (fun d => d.isAlphanum || d = '_')

/-- Python `str.isnumeric()` (ASCII fragment): non-empty and all digits. -/
def isNumericStr (s : Str) : Bool :=
  match s with
  | [] => false
  | _ => s.all Char.isDigit

/-- Python `str.lower()` (ASCII fragment). -/
def lowerStr (s : Str) : Str := s.map Char.toLower

/-- Python `str.split(sep)` for a one-character separator: always returns a
non-empty list; `''.split(c) = ['']`. -/
def splitCh (sep : Char) : Str → List Str
  | [] => [[]]
  | c :: rest =>
    match splitCh sep rest with
    | [] => [[]]
    | h :: t => if c = sep then [] :: h :: t else (c :: h) :: t

/-- `splitCh` never returns the empty list of pieces. -/
theorem splitCh_ne_nil (sep : Char) (s : Str) : splitCh sep s ≠ [] := by
  cases s with
  | nil => simp [splitCh]
  | cons c rest =>
    simp only [splitCh]
    cases splitCh sep rest with
    | nil => simp
    | cons h t => dsimp only; split <;> simp

/-- Worker for `natDigits`, structurally recursive on a fuel that the
wrapper sizes generously (the value shrinks by a factor of ten per step). -/
def natDigitsGo : Nat → Nat → Str
  | 0, _ => []
  | f + 1, m =>
    if m < 10 then [Char.ofNat (48 + m)]
    else natDigitsGo f (m / 10) ++ [Char.ofNat (48 + m % 10)]

/-- Decimal digits of a natural number (Python `str` of a non-negative int). -/
def natDigits (n : Nat) : Str := natDigitsGo (n + 1) n

/-- Python `str(int)`. -/
def intToStr (i : Int) : Str :=
  if i < 0 then '-' :: natDigits (-i).toNat else natDigits i.toNat

/-- Python `int(token)` on a string of decimal digits. -/
def digitsToNat (s : Str) : Nat :=
  s.foldl (fun a c => a * 10 + (c.toNat - 48)) 0

mutual

/-- A Python value as it can appear in a node's argument map or in a parser
environment: string, int, bool, `GraphQLEnum` (only its name participates in
rendering and comparison), nested `GraphQLNode`, list, or `None`. -/
inductive PyVal : Type where
  | pstr (s : Str)
  | pint (n : Int)
  | pbool (b : Bool)
  | penum (name : Str)
  | pnode (n : GNode)
  | plist (xs : List PyVal)
  | pnone

/-- A child entry of a node's `_items` list: a plain string or a nested node. -/
inductive Item : Type where
  | istr (s : Str)
  | inode (n : GNode)

/-- The state of a `GraphQLNode`: the fields set by `__init__` and mutated by
`add`/`update`. `nm`/`al` are `_name`/`_alias`; `validParams`/`validItems`
store the raw containers passed as `_valid_params`/`_valid_items`
(`none` is Python `None`). -/
inductive GNode : Type where
  | mk (nm al : Str) (params : List (Str × PyVal)) (items : List Item)
      (nude constant : Bool)
      (validParams validItems : Option PyVal)
      (gidPath : Str)

end

/-- `_name` field. -/
def GNode.nm : GNode → Str | .mk v _ _ _ _ _ _ _ _ => v

/-- `_alias` field. -/
def GNode.al : GNode → Str | .mk _ v _ _ _ _ _ _ _ => v

/-- `_params` field. -/
def GNode.params : GNode → List (Str × PyVal) | .mk _ _ v _ _ _ _ _ _ => v

/-- `_items` field. -/
def GNode.items : GNode → List Item | .mk _ _ _ v _ _ _ _ _ => v

/-- `_nude` field. -/
def GNode.nude : GNode → Bool | .mk _ _ _ _ v _ _ _ _ => v

/-- `_constant` field. -/
def GNode.constant : GNode → Bool | .mk _ _ _ _ _ v _ _ _ => v

/-- `_valid_params` field. -/
def GNode.validParams : GNode → Option PyVal | .mk _ _ _ _ _ _ v _ _ => v

/-- `_valid_items` field. -/
def GNode.validItems : GNode → Option PyVal | .mk _ _ _ _ _ _ _ v _ => v

/-- `_gid_path` field. -/
def GNode.gidPath : GNode → Str | .mk _ _ _ _ _ _ _ _ v => v

/-- Replace one field: the `_params` dict. -/
def GNode.withParams (s : GNode) (ps : List (Str × PyVal)) : GNode :=
  match s with
  | .mk a b _ d e f g h i => .mk a b ps d e f g h i

/-- Replace one field: the `_items` list. -/
def GNode.withItems (s : GNode) (its : List Item) : GNode :=
  match s with
  | .mk a b c _ e f g h i => .mk a b c its e f g h i

/-- Set the `_nude` flag. -/
def GNode.setNude (s : GNode) : GNode :=
  match s with
  | .mk a b c d _ f g h i => .mk a b c d true f g h i

/-- Replace one field: `_valid_params`. -/
def GNode.withValidParams (s : GNode) (v : Option PyVal) : GNode :=
  match s with
  | .mk a b c d e f _ h i => .mk a b c d e f v h i

/-- Replace one field: `_valid_items`. -/
def GNode.withValidItems (s : GNode) (v : Option PyVal) : GNode :=
  match s with
  | .mk a b c d e f g _ i => .mk a b c d e f g v i

/-- Replace one field: `_gid_path`. -/
def GNode.withGidPath (s : GNode) (v : Str) : GNode :=
  match s with
  | .mk a b c d e f g h _ => .mk a b c d e f g h v

/-- `GraphQLNode.__eq__`'s core rule on the two (alias, name) pairs:
aliases collide, or an alias collides with the other side's bare name,
or the bare names collide. -/
def nodeEqParts (sa sn oa onm : Str) : Bool :=
  if sa ≠ [] && oa ≠ [] then sa == oa
  else if sn ≠ [] && onm ≠ [] && (sa ≠ [] || oa ≠ []) then sa == onm || sn == oa
  else sn == onm

/-- `GraphQLNode.__eq__` comparing with a string: the string is split at `:`;
the last piece (stripped) is the name, the piece popped just before it
(stripped) the alias. Returns `(other_name, other_alias)`. -/
def strNameAlias (s : Str) : Str × Str :=
  match (splitCh ':' s).reverse with
  | [] => ([], [])
  | [x] => (stripStr x, [])
  | x :: y :: _ => (stripStr x, stripStr y)

/-- `GraphQLNode.__eq__` against a string operand. -/
def gnodeEqStr (self : GNode) (s : Str) : Bool :=
  nodeEqParts self.al self.nm (strNameAlias s).2 (strNameAlias s).1

/-- `GraphQLNode.__eq__` against another node. -/
def gnodeEqNode (a b : GNode) : Bool :=
  nodeEqParts a.al a.nm b.al b.nm

/-- Python `==` between two `_items` entries (including the reflected
`str == GraphQLNode` dispatch, which lands in `GraphQLNode.__eq__`). -/
def itemEq : Item → Item → Bool
  | .istr s, .istr t => s == t
  | .inode n, .istr s => gnodeEqStr n s
  | .istr s, .inode n => gnodeEqStr n s
  | .inode a, .inode b => gnodeEqNode a b

/-- Spaces for indentation: Python `' ' * n` (empty when `n` is negative). -/
def spacesN (n : Int) : Str := List.replicate n.toNat ' '

mutual

/-- `_param_to_graphql_rep`: render one argument value (strings quoted,
booleans lowercase, nodes as inline argument blocks, lists bracketed,
anything else through `str`). -/
def paramRep : PyVal → Str
  | .pstr s => '"' :: s ++ ['"']
  | .pbool b => if b then "true".toList else "false".toList
  | .pnode (.mk _ _ ps _ _ _ _ _ _) => lbrace :: ' ' :: paramsToStr ps ++ [' ', rbrace]
  | .plist xs => '[' :: ' ' :: listRep xs ++ [' ', ']']
  | .pint i => intToStr i
  | .penum s => s
  | .pnone => "None".toList

/-- The `', '.join` over rendered list elements. -/
def listRep : List PyVal → Str
  | [] => []
  | [v] => paramRep v
  | v :: w :: rest => paramRep v ++ ',' :: ' ' :: listRep (w :: rest)

/-- `_params_to_string`: `', '.join` of `key: value` pieces. -/
def paramsToStr : List (Str × PyVal) → Str
  | [] => []
  | [(k, v)] => k ++ ':' :: ' ' :: paramRep v
  | (k, v) :: p :: rest => k ++ ':' :: ' ' :: paramRep v ++ ',' :: ' ' :: paramsToStr (p :: rest)

end

mutual

/-- `GraphQLNode._to_string(indentation, size, separator, nude)`. -/
def toStr : GNode → Int → Int → Str → Bool → Str
  | .mk nm0 al0 ps0 its0 nd0 _ _ _ _, ind, size, sep, nude =>
    let spaces := spacesN (ind - size)
    let ind2 := if nude then ind - size else ind
    let field0 : Str :=
      if nude then [] else if al0 ≠ [] then al0 ++ ':' :: ' ' :: nm0 else nm0
    let field1 :=
      if !ps0.isEmpty && !nude then field0 ++ '(' :: paramsToStr ps0 ++ [')']
      else field0
    if !its0.isEmpty then
      let field2 := if field1 ≠ [] then field1 ++ [' '] else field1
      let field3 := if ¬nude then field2 ++ [lbrace] else field2
      let lines0 : List Str := if field3 ≠ [] then [spaces ++ field3] else []
      let lines1 := lines0 ++ itemsToStr its0 ind2 size sep nd0
      let lines2 := if ¬nude then lines1 ++ [spaces ++ [rbrace]] else lines1
      List.intercalate sep lines2
    else
      List.intercalate sep [spaces ++ field1]

/-- `GraphQLNode._items_to_string`: one rendered line (or sub-block) per item;
string items verbatim behind the indentation, node items recursively with
`next_indentation = indentation + 2 if indentation > 0 else 0`, passing the
parent's `_nude` flag down. -/
def itemsToStr (items : List Item) (ind size : Int) (sep : Str) (parentNude : Bool) :
    List Str :=
  match items with
  | [] => []
  | .istr s :: rest => (spacesN ind ++ s) :: itemsToStr rest ind size sep parentNude
  | .inode c :: rest =>
    toStr c (if ind > 0 then ind + 2 else 0) size sep parentNude ::
      itemsToStr rest ind size sep parentNude

end

/-- `GraphQLNode.__repr__` / `str(node)`: the compact one-line rendering. -/
def reprNode (n : GNode) : Str := toStr n 0 2 [' '] false

/-- `GraphQLNode.pretty(indentation)`: the newline-separated rendering. -/
def prettyNode (n : GNode) (ind : Int) : Str := toStr n ind ind ['\n'] false

/-- Python `str(value)` for the value kinds of the model (`str(node)` is its
`__repr__`, `str(enum)` its name, `str(bool)` is `True`/`False`). Lists render
through `repr`, modelled here only to keep the function total; the repository
never stringifies a list value outside `_param_to_graphql_rep`. -/
def pyStr : PyVal → Str
  | .pstr s => s
  | .pint i => intToStr i
  | .pbool b => if b then "True".toList else "False".toList
  | .penum s => s
  | .pnode n => reprNode n
  | .plist _ => "[...]".toList
  | .pnone => "None".toList

/-- Python truthiness of a value. -/
def pyTruthy : PyVal → Bool
  | .pstr s => !s.isEmpty
  | .pint i => i != 0
  | .pbool b => b
  | .penum _ => true
  | .pnode _ => true
  | .plist xs => !xs.isEmpty
  | .pnone => false

/-- One tag per distinct `raise` site in the two source modules (plus a fuel
tag, a modelling artifact of the parser's bounded recursion). -/
inductive PyErr : Type where
  | invalidName
  | immutableNode
  | invalidItem
  | invalidArgument
  | badItemType
  | nudeTypeMismatch
  | updateTypeMismatch
  | indexMiss
  | listIndexOut
  | attrMiss
  | strIndexErr
  | synErr (pos : Int)
  | undefinedVar (name : Str)
  | fuelOut
  deriving DecidableEq

/-- Python `==` between a string and an arbitrary value (including the
reflected dispatches into `GraphQLEnum.__eq__` and `GraphQLNode.__eq__`). -/
def strEqPy (x : Str) : PyVal → Bool
  | .pstr s => x == s
  | .penum n => lowerStr x == lowerStr n
  | .pnode n => gnodeEqStr n x
  | _ => false

/-- Python `==` between an `_items` entry and a container element. -/
def itemEqPy (it : Item) (v : PyVal) : Bool :=
  match it with
  | .istr s => strEqPy s v
  | .inode n =>
    match v with
    | .pstr t => gnodeEqStr n t
    | .pnode b => gnodeEqNode n b
    | _ => nodeEqParts n.al n.nm [] []

/-- Loose Python `==` between two values, used only for membership tests of
non-child argument objects; the int/bool crossover (`True == 1`) is not
modelled, the repository never exercises it. -/
def pyValEqLoose : PyVal → PyVal → Bool
  | .pstr s, w => strEqPy s w
  | .pint a, .pint b => a == b
  | .pbool a, .pbool b => a == b
  | .penum a, w => strEqPy a w
  | _, _ => false

/-- Python substring containment `x in s` between strings. -/
def strSubstr (x s : Str) : Bool :=
  (List.range (s.length + 1)).any (fun i => x.isPrefixOf (s.drop i))

/-- Python `x in container` for a string `x`: list membership by `==`,
substring test for string containers, `False` otherwise (a non-container
would raise `TypeError`; the repository only passes lists). -/
def pyContainsStr (container : PyVal) (x : Str) : Bool :=
  match container with
  | .plist xs => xs.any (strEqPy x)
  | .pstr s => strSubstr x s
  | _ => false

/-- Python `item in container` for an `_items` entry. -/
def pyContainsItem (container : PyVal) (it : Item) : Bool :=
  match container with
  | .plist xs => xs.any (itemEqPy it)
  | .pstr s =>
    match it with
    | .istr t => strSubstr t s
    | .inode _ => false
  | _ => false

/-- `GraphQLNode._get_gid`'s accumulation loop over the path segments:
skip empty segments, stop at the first segment the id already starts with,
otherwise extend the running prefix. -/
def gidLoop : List Str → Str → Str → Str
  | [], _, pref => pref
  | seg :: rest, idv, pref =>
    if seg.isEmpty then gidLoop rest idv pref
    else if seg.isPrefixOf idv then pref
    else gidLoop rest idv (if pref.isEmpty then seg else pref ++ '/' :: seg)

/-- `GraphQLNode._get_gid`: pass a `gid://`-prefixed id through unchanged,
otherwise prepend the accumulated path prefix and the `gid://` marker. -/
def getGid (gidPath : Str) (idv : PyVal) : PyVal :=
  if ("gid://".toList).isPrefixOf (pyStr idv) then idv
  else
    let pref := gidLoop (splitCh '/' gidPath) (pyStr idv) []
    let s1 : Str := if pref.isEmpty then pyStr idv else pref ++ '/' :: pyStr idv
    .pstr ("gid://".toList ++ s1)

/-- Python ordered-dict assignment `d[k] = v`: overwrite in place if the key
exists, append otherwise. -/
def setParam (ps : List (Str × PyVal)) (k : Str) (v : PyVal) : List (Str × PyVal) :=
  if ps.any (fun p => p.1 == k) then ps.map (fun p => if p.1 == k then (p.1, v) else p)
  else ps ++ [(k, v)]

/-- Dict lookup on a keyword-argument association list. -/
def kwLookup (kwargs : List (Str × PyVal)) (k : Str) : Option PyVal :=
  (kwargs.find? (fun p => p.1 == k)).map (·.2)

/-- Dict `pop` (keyword-argument lists represent dicts, keys unique). -/
def kwRemove (kwargs : List (Str × PyVal)) (k : Str) : List (Str × PyVal) :=
  kwargs.filter (fun p => p.1 != k)

/-- The name/alias processing of `GraphQLNode.__init__`: split the name at
`:`, strip the pieces, pop the last as `_name` (validated as an identifier
when non-empty), join the rest as the fallback alias; a truthy `_alias`
keyword wins over the fallback. All other fields start at their defaults. -/
def initFields (nmArg : Str) (aliasKw : Option PyVal) : Except PyErr GNode :=
  let parts := (splitCh ':' nmArg).map stripStr
  let name := (parts.getLast?).getD []
  if !name.isEmpty && !isIdentStr name then .error .invalidName
  else
    let otherAl := (parts.dropLast).flatten
    let al := match aliasKw with
      | some v => if pyTruthy v then pyStr v else otherAl
      | none => otherAl
    .ok (.mk name al [] [] false false none none [])

/-- `GraphQLNode(name)` with no further arguments (also the constructor used
inside `_drop`); its trailing `add()` call is a no-op. -/
def mkNameNode (nm : Str) : Except PyErr GNode := initFields nm none

/-- Remove the first element equal (`itemEq`) to `it` (Python `list.remove`
behind the membership guard of `_drop`). -/
def removeFirstItem : List Item → Item → List Item
  | [], _ => []
  | e :: rest, it => if itemEq e it then rest else e :: removeFirstItem rest it

/-- `GraphQLNode._drop`: remove the first `==`-equal occurrence; failing
that, a string argument is wrapped as a fresh node (whose constructor may
raise on a malformed name) and the removal retried once. -/
def dropIt (items : List Item) (it : Item) : Except PyErr (List Item) :=
  if items.any (fun e => itemEq it e) then .ok (removeFirstItem items it)
  else
    match it with
    | .istr s =>
      match mkNameNode s with
      | .error e => .error e
      | .ok n =>
        if items.any (fun e => itemEq (.inode n) e) then
          .ok (removeFirstItem items (.inode n))
        else
          .ok items
    | .inode _ => .ok items

/-- An actual argument of `add`/`GraphQLNode(...)`'s `*args`: a child
(string or node), a dict bundle of name → children, or a value of any other
type (which `_add_items` rejects). -/
inductive AddArg : Type where
  | item (it : Item)
  | dict (entries : List (Str × List Item))
  | bad (v : PyVal)

/-- The `item not in self._valid_items` test for each `*args` shape. -/
def argMember (container : PyVal) : AddArg → Bool
  | .item it => pyContainsItem container it
  | .dict _ => false
  | .bad v =>
    match container with
    | .plist xs => xs.any (pyValEqLoose v)
    | _ => false

/-- `_drop` followed by `append` — the replace-in-place step of
`_add_items`. -/
def dropThenAppend (items : List Item) (it : Item) : Except PyErr (List Item) :=
  match dropIt items it with
  | .error e => .error e
  | .ok its2 => .ok (its2 ++ [it])

/-- `GraphQLNode(i, *v)` as built for one dict entry inside `_add_items`:
a fresh node (no validation lists, not nude) whose children are added one by
one with the drop-then-append step. -/
def plainAddAll (acc : List Item) : List Item → Except PyErr (List Item)
  | [] => .ok acc
  | it :: rest =>
    match dropIt acc it with
    | .error e => .error e
    | .ok a2 => plainAddAll (a2 ++ [it]) rest

/-- Constructor call `GraphQLNode(i, *v)` for a dict entry. -/
def mkNodeFromDict (i : Str) (v : List Item) : Except PyErr GNode :=
  match mkNameNode i with
  | .error e => .error e
  | .ok base =>
    match plainAddAll [] v with
    | .error e => .error e
    | .ok its => .ok (base.withItems its)

/-- The dict branch of `_add_items`: one constructed node per entry, each
dropped then appended. A failure carries the partially extended list, since
Python raises after the earlier entries were already appended in place. -/
def dictAdd (items : List Item) : List (Str × List Item) →
    Except (PyErr × List Item) (List Item)
  | [] => .ok items
  | (i, v) :: rest =>
    match mkNodeFromDict i v with
    | .error e => .error (e, items)
    | .ok t =>
      match dropIt items (.inode t) with
      | .error e => .error (e, items)
      | .ok its2 => dictAdd (its2 ++ [.inode t]) rest

/-- The per-argument loop of `_add_items` (entered on a non-nude receiver):
validity check first, then replace-in-place for children, per-entry
construction for dicts, `TypeError` for anything else. Python mutates the
receiver in place, so an error result carries the state already reached
when the exception was raised. -/
def addItemsLoop (s : GNode) : List AddArg → Except (PyErr × GNode) GNode
  | [] => .ok s
  | a :: rest =>
    let chk : Option PyErr :=
      match s.validItems with
      | some container => if !(argMember container a) then some .invalidItem else none
      | none => none
    match chk with
    | some e => .error (e, s)
    | none =>
      let step : Except (PyErr × List Item) (List Item) :=
        match a with
        | .item it =>
          match dropThenAppend s.items it with
          | .ok its2 => .ok its2
          | .error e => .error (e, s.items)
        | .dict entries => dictAdd s.items entries
        | .bad _ => .error (.badItemType, s.items)
      match step with
      | .error (e, its2) => .error (e, s.withItems its2)
      | .ok its2 => addItemsLoop (s.withItems its2) rest

/-- `GraphQLNode._add_items`: on a nude node, delegate the whole call to
`self._items[0].add(*args)` (an empty or string-headed item list would raise
in Python); otherwise run the argument loop. Python mutates the receiver in
place, so an error result carries the state already reached when the
exception was raised. -/
def addItemsCore : GNode → List AddArg → Except (PyErr × GNode) GNode
  | .mk nm al ps its true co vp vi gp, args =>
    match its with
    | [] => .error (.listIndexOut, .mk nm al ps its true co vp vi gp)
    | .istr t :: rest => .error (.attrMiss, .mk nm al ps (.istr t :: rest) true co vp vi gp)
    | .inode c :: rest =>
      if c.constant then .error (.immutableNode, .mk nm al ps (.inode c :: rest) true co vp vi gp)
      else
        match (if args.isEmpty then .ok c else addItemsCore c args) with
        | .ok c2 => .ok (.mk nm al ps (.inode c2 :: rest) true co vp vi gp)
        | .error (e, c2) => .error (e, .mk nm al ps (.inode c2 :: rest) true co vp vi gp)
  | .mk nm al ps its false co vp vi gp, args =>
    addItemsLoop (.mk nm al ps its false co vp vi gp) args

/-- The plain-parameter loop of `_add_params`: strip leading underscores from
the key, apply gid-normalization to the `id` key, reject keys missing from a
set `_valid_params`, then assign into the ordered dict. A rejection carries
the receiver state reached so far (earlier keys were already assigned in
place). -/
def paramsLoop (s : GNode) : List (Str × PyVal) → Except (PyErr × GNode) GNode
  | [] => .ok s
  | (i, v) :: rest =>
    let i2 := i.dropWhile (· = '_')
    let v2 := if i2 == "id".toList then getGid s.gidPath v else v
    let rejected : Bool :=
      match s.validParams with
      | some container => !(pyContainsStr container i2)
      | none => false
    if rejected then .error (.invalidArgument, s)
    else paramsLoop (s.withParams (setParam s.params i2 v2)) rest

/-- `GraphQLNode._add_params`: pop the special keys `_node`,
`_valid_params`, `_valid_items`, `_gid_path` (a truthy `_node` must be a
node and turns the receiver into a nude wrapper around it; `_gid_path`
defaults to the empty string, which resets the field), then run the plain
loop on the remaining keys. There is no nude delegation here: the
parameters land on the receiver itself. -/
def addParamsCore (s : GNode) (kwargs : List (Str × PyVal)) :
    Except (PyErr × GNode) GNode :=
  let nudeV := kwLookup kwargs ("_node".toList)
  let vpV := kwLookup kwargs ("_valid_params".toList)
  let viV := kwLookup kwargs ("_valid_items".toList)
  let gpV := kwLookup kwargs ("_gid_path".toList)
  let rest := (((kwRemove kwargs ("_node".toList)).filter (fun p => p.1 != "_valid_params".toList)).filter
    (fun p => p.1 != "_valid_items".toList)).filter (fun p => p.1 != "_gid_path".toList)
  let s1res : Except (PyErr × GNode) GNode :=
    match nudeV with
    | some v =>
      if pyTruthy v then
        match v with
        | .pnode n => .ok (((s.withItems [.inode n]).setNude))
        | _ => .error (.nudeTypeMismatch, s)
      else .ok s
    | none => .ok s
  match s1res with
  | .error e => .error e
  | .ok s1 =>
    let s2 :=
      match vpV with
      | some .pnone | none => s1
      | some v => s1.withValidParams (some v)
    let s3 :=
      match viV with
      | some .pnone | none => s2
      | some v => s2.withValidItems (some v)
    let s4 :=
      match gpV with
      | none => s3.withGidPath []
      | some .pnone => s3
      | some (.pstr t) => s3.withGidPath t
      | some v => s3.withGidPath (pyStr v)
    paramsLoop s4 rest

/-- `GraphQLNode.add`: immutability check, then parameters (kwargs) before
items (args), each only when present. -/
def addNode (s : GNode) (args : List AddArg) (kwargs : List (Str × PyVal)) :
    Except (PyErr × GNode) GNode :=
  if s.constant then .error (.immutableNode, s)
  else
    match (if kwargs.isEmpty then .ok s else addParamsCore s kwargs) with
    | .error e => .error e
    | .ok s1 => if args.isEmpty then .ok s1 else addItemsCore s1 args

/-- `GraphQLNode(name, *args, **kwargs)` (a `_alias` key in the kwargs binds
the keyword-only `_alias` parameter). -/
def mkGNode (nmArg : Str) (args : List AddArg) (kwargs : List (Str × PyVal)) :
    Except PyErr GNode :=
  match initFields nmArg (kwLookup kwargs ("_alias".toList)) with
  | .error e => .error e
  | .ok base =>
    match addNode base args (kwRemove kwargs ("_alias".toList)) with
    | .ok n => .ok n
    | .error (e, _) => .error e

/-- `GraphQLNode.items()`: a nude node returns its wrapped child's items
(an empty or string-headed `_items` would raise in Python). -/
def itemsAcc : GNode → Except PyErr (List Item)
  | .mk _ _ _ its true _ _ _ _ =>
    match its with
    | [] => .error .listIndexOut
    | .istr _ :: _ => .error .attrMiss
    | .inode c :: _ => itemsAcc c
  | .mk _ _ _ its false _ _ _ _ => .ok its

/-- `GraphQLNode.params()`: a nude node returns its wrapped child's params. -/
def paramsAcc : GNode → Except PyErr (List (Str × PyVal))
  | .mk _ _ _ its true _ _ _ _ =>
    match its with
    | [] => .error .listIndexOut
    | .istr _ :: _ => .error .attrMiss
    | .inode c :: _ => paramsAcc c
  | .mk _ _ ps _ false _ _ _ _ => .ok ps

/-- `GraphQLNode.__getitem__` without a default: nude delegation into the
wrapped child, otherwise a linear scan by `==`, raising on a miss. -/
def getItemRaise : GNode → Item → Except PyErr Item
  | .mk _ _ _ its true _ _ _ _, index =>
    match its with
    | [] => .error .listIndexOut
    | .istr _ :: _ => .error .strIndexErr
    | .inode c :: _ => getItemRaise c index
  | .mk _ _ _ its false _ _ _ _, index =>
    match its.find? (fun v => itemEq v index) with
    | some v => .ok v
    | none => .error .indexMiss

/-- `GraphQLNode.__getitem__` with `default=None`: the default protects only
the outermost scan; the nude delegation calls the child without a default,
so misses inside the child still raise. -/
def getItemOpt : GNode → Item → Except PyErr (Option Item)
  | .mk _ _ _ its true _ _ _ _, index =>
    match its with
    | [] => .error .listIndexOut
    | .istr _ :: _ => .error .strIndexErr
    | .inode c :: _ =>
      match getItemRaise c index with
      | .error e => .error e
      | .ok r => .ok (some r)
  | .mk _ _ _ its false _ _ _ _, index =>
    .ok (its.find? (fun v => itemEq v index))

mutual

/-- Computable structural size of a node (used to size `update`'s fuel). -/
def gnodeSize : GNode → Nat
  | .mk _ _ ps its _ _ _ _ _ => 1 + paramsSize ps + itemsSize its

/-- Computable structural size of an item list. -/
def itemsSize : List Item → Nat
  | [] => 0
  | .istr _ :: r => 1 + itemsSize r
  | .inode n :: r => 1 + gnodeSize n + itemsSize r

/-- Computable structural size of a parameter list. -/
def paramsSize : List (Str × PyVal) → Nat
  | [] => 0
  | (_, v) :: r => 1 + pyvalSize v + paramsSize r

/-- Computable structural size of a value. -/
def pyvalSize : PyVal → Nat
  | .pnode n => 1 + gnodeSize n
  | .plist xs => 1 + plistSize xs
  | _ => 1

/-- Computable structural size of a value list. -/
def plistSize : List PyVal → Nat
  | [] => 0
  | v :: r => 1 + pyvalSize v + plistSize r

end

/-- Replace the first `==`-equal occurrence (in-place mutation of the entry
that `__getitem__` found). -/
def replaceFirstEq (items : List Item) (key : Item) (new : Item) : List Item :=
  match items with
  | [] => []
  | v :: rest => if itemEq v key then new :: rest else v :: replaceFirstEq rest key new

mutual

/-- `GraphQLNode.update(other)` (fuelled; the fuel only bounds the nesting
recursion into `existing.update(i)` and nude delegation, and is sized by the
caller so that it never runs out on the paths the theorems below take).
An error result carries the receiver state already reached, mirroring the
in-place mutation of the Python original. -/
def updCore : Nat → GNode → GNode → Except (PyErr × GNode) GNode
  | 0, s, _ => .error (.fuelOut, s)
  | f + 1, s, other =>
    if s.constant then .error (.immutableNode, s)
    else
      let step : Except (PyErr × GNode) GNode :=
        if s.nude then
          match s.items with
          | [] => .error (.listIndexOut, s)
          | .istr _ :: _ => .error (.attrMiss, s)
          | .inode c :: rest =>
            match updCore f c other with
            | .ok c2 => .ok (s.withItems (.inode c2 :: rest))
            | .error (e, c2) => .error (e, s.withItems (.inode c2 :: rest))
        else
          match itemsAcc other with
          | .error e => .error (e, s)
          | .ok oitems => updItems f s oitems
      match step with
      | .error e => .error e
      | .ok s2 =>
        match paramsAcc other with
        | .error e => .error (e, s2)
        | .ok ps => addNode s2 [] ps

/-- The child loop of `update`: a matching node child absorbs a node entry
recursively (a string entry is skipped); anything else is re-`add`ed. -/
def updItems : Nat → GNode → List Item → Except (PyErr × GNode) GNode
  | _, s, [] => .ok s
  | f, s, i :: rest =>
    match getItemOpt s i with
    | .error e => .error (e, s)
    | .ok ex =>
      match ex with
      | some (.inode e) =>
        match i with
        | .inode io =>
          match updCore f e io with
          | .ok e2 => updItems f (s.withItems (replaceFirstEq s.items i (.inode e2))) rest
          | .error (er, e2) =>
            .error (er, s.withItems (replaceFirstEq s.items i (.inode e2)))
        | .istr _ => updItems f s rest
      | _ =>
        match addNode s [.item i] [] with
        | .error er => .error er
        | .ok s2 => updItems f s2 rest

end

/-- `update` entered with fuel that covers the recursion depth of `other`. -/
def updateNode (s other : GNode) : Except (PyErr × GNode) GNode :=
  updCore (gnodeSize other) s other

/-- A control character in the sanitizer's sense: `[\x00-\x1f\x7f-\x9f]`. -/
def isCtrlCh (c : Char) : Bool :=
  c.toNat ≤ 0x1f || (0x7f ≤ c.toNat && c.toNat ≤ 0x9f)

/-- `sanitize_query`: split into lines, strip each, delete control
characters, join with single spaces, and reverse the whole text. -/
def sanitizeQ (q : Str) : Str :=
  let lines := (splitCh '\n' q).map (fun l => (stripStr l).filter (fun c => !isCtrlCh c))
  (List.intercalate [' '] lines).reverse

/-- `_get_stripped`: cut `toRemove` characters, strip, and report how many
characters disappeared. -/
def getStripped (text : Str) (toRemove : Nat) : Nat × Str :=
  let t := stripStr (text.drop toRemove)
  (text.length - t.length, t)

/-- The escaped-character class of the string-literal regex. -/
def escCl (c : Char) : Bool :=
  c = '"' || c = '\\' || c = '/' || c = 'b' || c = 'f' || c = 'n' || c = 'r' || c = 't'

/-- A hexadecimal digit. -/
def isHexD (c : Char) : Bool :=
  c.isDigit || ('a' ≤ c && c ≤ 'f') || ('A' ≤ c && c ≤ 'F')

/-- A character the string-literal regex excludes from its plain-character
alternative. -/
def exclCh (c : Char) : Bool :=
  c = '"' || c = '\\' || c = '\n' || c = '\r' ||
  c = Char.ofNat 0x2028 || c = Char.ofNat 0x2029

/-- The body of the string-literal regex after its opening quote, with the
backtracking alternation of `re`: prefer an escape pair, then a `u`-escape,
then a plain character, and close on a quote only when no alternative
extends the match. Returns the matched length including the closing
quote. -/
def strTokTail : Nat → Str → Option Nat
  | 0, _ => none
  | _, [] => none
  | f + 1, c1 :: rest =>
    let tryA : Option Nat :=
      if rest.head? = some '\\' && escCl c1 then (strTokTail f (rest.drop 1)).map (· + 2)
      else none
    let tryB : Option Nat :=
      if c1 = 'u' && (rest.drop 4).head? = some '\\' && (rest.take 4).all isHexD then
        (strTokTail f (rest.drop 5)).map (· + 6)
      else none
    let tryC : Option Nat :=
      if !(exclCh c1) then (strTokTail f rest).map (· + 1) else none
    tryA <|> tryB <|> tryC <|> (if c1 = '"' then some 1 else none)

/-- `_get_next_token` on the reversed stream: skip whitespace, then a
maximal word-character run (re-reversed on return), else a string literal
(re-reversed), else one single character. -/
def nextToken (query : Str) : Str × Nat × Str :=
  let p0 := getStripped query 0
  let r0 := p0.1
  let q := p0.2
  if q.isEmpty then ([], r0, q)
  else
    let w := q.takeWhile isWordCh
    if !w.isEmpty then
      let p1 := getStripped q w.length
      (w.reverse, r0 + p1.1, p1.2)
    else
      match q with
      | '"' :: tail =>
        match strTokTail (tail.length + 1) tail with
        | some n =>
          let p1 := getStripped q (n + 1)
          ((q.take (n + 1)).reverse, r0 + p1.1, p1.2)
        | none =>
          let p1 := getStripped q 1
          (q.take 1, r0 + p1.1, p1.2)
      | _ =>
        let p1 := getStripped q 1
        (q.take 1, r0 + p1.1, p1.2)

/-- Python `token == lit` where `token` may have been substituted from the
environment (string, enum, node and other values compare as their
`__eq__` dispatches). -/
def pyEqLit (v : PyVal) (lit : Str) : Bool := strEqPy lit v

/-- The name `GraphQLEnum(name=token)` receives when the token was
substituted from the environment (the repository substitutes strings). -/
def enumNameOf : PyVal → Str
  | .pstr s => s
  | v => pyStr v

/-- The syntax tokens of the parser. -/
def synToks : List Str := [['('], [')'], [lbrace], [rbrace], [','], [':']]

mutual

/-- `_parse_params`, transliterated: one recursive step per token, with the
running `params` dict, the last parsed `value`, and the `waiting_value`
flag. The fuel only bounds the loop; the entry points size it by the input
length, which a step per consumed character never exhausts. -/
def ppLoop (fuel : Nat) (query : Str) (closing : Str) (pos : Int)
    (env : List (Str × PyVal)) (params : List (Str × PyVal)) (value : PyVal)
    (waiting : Bool) : Except PyErr (List (Str × PyVal) × Int × Str) :=
  match fuel with
  | 0 => .error .fuelOut
  | f + 1 =>
    let t0 := nextToken query
    let token := t0.1
    let removed := t0.2.1
    let q := t0.2.2
    if token.isEmpty then
      if !closing.isEmpty || waiting then .error (.synErr pos)
      else .ok (params, pos, q)
    else
      let pos := pos - (removed : Int)
      if token = closing then .ok (params, pos, q)
      else if waiting && token = [rbrace] then
        match ppLoop f q [lbrace] pos env [] .pnone true with
        | .error e => .error e
        | .ok r =>
          match mkGNode [] [] r.1 with
          | .error e => .error e
          | .ok n => ppLoop f r.2.2 closing r.2.1 env params (.pnode n) false
      else if token = [lbrace] || token = ['('] || token = [')'] then
        .error (.synErr pos)
      else if token = [','] then
        if !waiting then .error (.synErr pos)
        else ppLoop f q closing pos env params value waiting
      else if token = [':'] then
        if waiting then .error (.synErr pos)
        else ppLoop f q closing pos env params value waiting
      else if token = ['$'] then
        if waiting then .error (.synErr pos)
        else ppLoop f q closing pos env params value false
      else if waiting && token.head? = some '"' then
        let v0 := stripQuotes token
        let v : PyVal :=
          if v0.head? = some '$' then (kwLookup env v0.tail).getD (.pstr [])
          else .pstr v0
        ppLoop f q closing pos env params v false
      else if waiting && isNumericStr token then
        ppLoop f q closing pos env params (.pint (digitsToNat token)) false
      else if isIdentStr token then
        if waiting then
          match (if q.take 1 = ['$'] then
              match kwLookup env token with
              | none => .error (.undefinedVar token)
              | some tmp =>
                if !pyTruthy tmp then .error (.undefinedVar token) else .ok tmp
            else .ok (.pstr token) : Except PyErr PyVal) with
          | .error e => .error e
          | .ok tv =>
            let v : PyVal :=
              if pyEqLit tv ("true".toList) then .pbool true
              else if pyEqLit tv ("false".toList) then .pbool false
              else .penum (enumNameOf tv)
            ppLoop f q closing pos env params v false
        else
          ppLoop f q closing pos env (setParam params token value) value true
      else .error (.synErr pos)

/-- `_get_graphql_nodes`, transliterated: the running `items`/`params`
accumulators, the result list `nodes` built by prepending, and the previous
token for the comma check. -/
def pnLoop (fuel : Nat) (query : Str) (closing : Str) (pos : Int)
    (env : List (Str × PyVal)) (items : List GNode) (params : List (Str × PyVal))
    (nodes : List GNode) (prev : Str) : Except PyErr (List GNode × Int × Str) :=
  match fuel with
  | 0 => .error .fuelOut
  | f + 1 =>
    let t0 := nextToken query
    let token := t0.1
    let removed := t0.2.1
    let q := t0.2.2
    if token.isEmpty then
      if !closing.isEmpty then .error (.synErr pos)
      else if !items.isEmpty || !params.isEmpty then
        match mkGNode [] (items.map (fun g => AddArg.item (.inode g))) params with
        | .error e => .error e
        | .ok n => .ok (n :: nodes, pos, q)
      else .ok (nodes, pos, q)
    else
      let pos := pos - (removed : Int)
      if token = [','] then
        if synToks.contains prev then .error (.synErr pos)
        else pnLoop f q closing pos env items params nodes token
      else if token = [rbrace] then
        match pnLoop f q [lbrace] pos env [] [] [] [] with
        | .error e => .error e
        | .ok r => pnLoop f r.2.2 closing r.2.1 env r.1 params nodes token
      else if token = [')'] then
        match ppLoop f q ['('] pos env [] .pnone true with
        | .error e => .error e
        | .ok r => pnLoop f r.2.2 closing r.2.1 env items r.1 nodes token
      else if token = closing then .ok (nodes, pos, q)
      else if token = [lbrace] || token = ['('] then .error (.synErr pos)
      else if isIdentStr token then
        match (if q.take 1 = [':'] then
            let p1 := getStripped q 1
            let pos2 := pos - (p1.1 : Int)
            let t1 := nextToken p1.2
            if t1.1.isEmpty then .error (.synErr pos2)
            else .ok (t1.1 ++ ':' :: ' ' :: token, pos2, t1.2.2)
          else .ok (token, pos, q) : Except PyErr (Str × Int × Str)) with
        | .error e => .error e
        | .ok r =>
          match mkGNode r.1 (items.map (fun g => AddArg.item (.inode g))) params with
          | .error e => .error e
          | .ok n => pnLoop f r.2.2 closing r.2.1 env [] [] (n :: nodes) r.1
      else .error (.synErr pos)

end

/-- `string_to_graphql`: sanitize (which reverses), start at position
`len(query)`, and collect the top-level nodes with the empty closing
token. -/
def stringToGraphql (query : Str) (env : List (Str × PyVal)) :
    Except PyErr (List GNode) :=
  let q := sanitizeQ query
  match pnLoop (q.length + 1) q [] (q.length : Int) env [] [] [] [] with
  | .error e => .error e
  | .ok r => .ok r.1

/-! ## Claim C6: gid normalization -/

/-- The spec's wording of the gid walk (§4.1): over the *non-empty* segments
of the base path, in order, stop at the first segment the raw id value
already starts with, otherwise extend the running prefix. Stated separately
from `gidLoop` (which skips empty segments inline) so the two can be
compared. -/
def specGidWalk : List Str → Str → Str → Str
  | [], _, pref => pref
  | seg :: rest, idv, pref =>
    if seg.isPrefixOf idv then pref
    else specGidWalk rest idv (if pref.isEmpty then seg else pref ++ '/' :: seg)

/-- The spec's wording of gid normalization: ids already carrying the
`gid://` marker pass through unchanged; otherwise the accumulated prefix
(if any) and the marker are prepended. -/
def specGid (path : Str) (idv : PyVal) : PyVal :=
  if ("gid://".toList).isPrefixOf (pyStr idv) then idv
  else
    let pref := specGidWalk ((splitCh '/' path).filter (fun x => !x.isEmpty)) (pyStr idv) []
    .pstr ("gid://".toList ++ (if pref.isEmpty then pyStr idv else pref ++ '/' :: pyStr idv))

theorem gidLoop_eq_specGidWalk (l : List Str) (idv pref : Str) :
    gidLoop l idv pref = specGidWalk (l.filter (fun x => !x.isEmpty)) idv pref := by
  induction l generalizing pref with
  | nil => simp [gidLoop, specGidWalk]
  | cons seg rest ih =>
    by_cases h : seg.isEmpty
    · simp [gidLoop, h, List.filter, ih]
    · simp [gidLoop, h, List.filter, specGidWalk, ih]

/-- Claim C6: for the `id` argument, `_get_gid` walks the non-empty segments
of the gid base path in order, accumulating a running prefix and stopping at
the first segment the raw id value already starts with, then prepends the
accumulated prefix (if any) and the `gid://` marker; base path `a/b/c` turns
id `42` into `gid://a/b/c/42` and id `b/42` into `gid://a/b/42`; an id
already starting with `gid://` passes through unchanged. -/
theorem claim_C6 :
    (∀ path idv, getGid path idv = specGid path idv) ∧
    getGid ("a/b/c".toList) (.pstr ("42".toList)) = .pstr ("gid://a/b/c/42".toList) ∧
    getGid ("a/b/c".toList) (.pstr ("b/42".toList)) = .pstr ("gid://a/b/42".toList) ∧
    (∀ path, getGid path (.pstr ("gid://x/1".toList)) = .pstr ("gid://x/1".toList)) := by
  refine ⟨fun path idv => ?_, by rfl, by rfl, fun path => by rfl⟩
  unfold getGid specGid
  rw [gidLoop_eq_specGidWalk]

/-! ## Claim C10: equality between a node and a plain string -/

/-- Claim C10: comparing a node with a plain string splits the string at
`:`, takes the piece after the last colon (stripped) as the name and the
piece just before it (stripped) as the alias, and then applies exactly the
node-to-node collision rules; in particular a node with alias `a` equals
the string `a: b`. -/
theorem claim_C10 :
    (∀ (n : GNode) (s : Str), gnodeEqStr n s =
      gnodeEqNode n (.mk (strNameAlias s).1 (strNameAlias s).2 [] [] false false none none [])) ∧
    (∀ s : Str, (strNameAlias s).1 = stripStr (((splitCh ':' s).reverse).headD []) ∧
      (strNameAlias s).2 = stripStr (((splitCh ':' s).reverse).tail.headD [])) ∧
    gnodeEqStr (.mk ("b".toList) ("a".toList) [] [] false false none none [])
      ("a: b".toList) = true := by
  refine ⟨fun n s => rfl, fun s => ?_, by rfl⟩
  unfold strNameAlias
  match h : (splitCh ':' s).reverse with
  | [] => simp [stripStr]
  | [x] => simp [stripStr]
  | x :: y :: rest => simp

/-! ## Helper lemmas on the child-equality relation -/

theorem nodeEqParts_refl (a n : Str) : nodeEqParts a n a n = true := by
  unfold nodeEqParts
  by_cases h : a = []
  · simp [h]
  · simp [h]

theorem itemEq_refl (c : Item) : itemEq c c = true := by
  cases c with
  | istr s => simp [itemEq]
  | inode n => simpa [itemEq, gnodeEqNode] using nodeEqParts_refl n.al n.nm

theorem nodeEqParts_symm (sa sn oa onm : Str) :
    nodeEqParts sa sn oa onm = nodeEqParts oa onm sa sn := by
  unfold nodeEqParts
  by_cases h1 : sa = [] <;> by_cases h2 : oa = [] <;>
    by_cases h3 : sn = [] <;> by_cases h4 : onm = [] <;>
    simp [h1, h2, h3, h4, BEq.comm, Bool.or_comm]

theorem gnodeEqNode_symm (a b : GNode) : gnodeEqNode a b = gnodeEqNode b a := by
  unfold gnodeEqNode
  exact nodeEqParts_symm _ _ _ _

theorem itemEq_symm (a b : Item) : itemEq a b = itemEq b a := by
  cases a <;> cases b <;> simp [itemEq, gnodeEqNode_symm, eq_comm]

theorem countP_pos_any (p : Item → Bool) (l : List Item) (h : 0 < l.countP p) :
    l.any p = true := by
  induction l with
  | nil => simp [List.countP_nil] at h
  | cons e rest ih =>
    by_cases he : p e
    · simp [he]
    · rw [List.countP_cons] at h
      simp only [he, if_neg, Bool.false_eq_true, not_false_eq_true, Nat.add_zero] at h
      simp only [List.any_cons, he, Bool.false_or]
      exact ih h

theorem removeFirstItem_countP (l : List Item) (c : Item)
    (h : 0 < l.countP (fun e => itemEq c e)) :
    (removeFirstItem l c).countP (fun e => itemEq c e) =
      l.countP (fun e => itemEq c e) - 1 ∧
    (removeFirstItem l c).length + 1 = l.length := by
  induction l with
  | nil => simp [List.countP_nil] at h
  | cons e rest ih =>
    by_cases he : itemEq e c
    · have he2 : itemEq c e = true := by rw [itemEq_symm]; exact he
      simp [removeFirstItem, he, List.countP_cons, he2]
    · have he2 : itemEq c e = false := by
        rw [itemEq_symm]; simpa using he
      rw [List.countP_cons] at h
      simp only [he2, if_neg, Bool.false_eq_true, not_false_eq_true, Nat.add_zero] at h
      simp only [removeFirstItem, he, if_neg, Bool.false_eq_true, not_false_eq_true]
      have hr := ih h
      constructor
      · simp only [List.countP_cons, he2, if_neg, Bool.false_eq_true, not_false_eq_true,
          Nat.add_zero, hr.1]
      · simpa [List.length_cons] using hr.2

theorem removeFirstItem_append_of_countP_zero (rem : List Item) (c : Item)
    (h : rem.countP (fun e => itemEq c e) = 0) :
    removeFirstItem (rem ++ [c]) c = rem := by
  induction rem with
  | nil => simp [removeFirstItem, itemEq_refl]
  | cons e rest ih =>
    rw [List.countP_cons] at h
    by_cases he : itemEq c e
    · simp [he] at h
    · have he2 : itemEq e c = false := by rw [itemEq_symm]; simpa using he
      have hrest : rest.countP (fun e => itemEq c e) = 0 := by
        simp only [he, if_neg, Bool.false_eq_true, not_false_eq_true, Nat.add_zero] at h
        exact h
      simp only [List.cons_append, removeFirstItem, he2, if_neg, Bool.false_eq_true,
        not_false_eq_true]
      rw [show rest.append [c] = rest ++ [c] from rfl, ih hrest]

/-! ## Claim C5: replace-in-place on duplicate add -/

/-- Claim C5, amended: when **exactly one** existing child is structurally
equal to `c`, `add(c)` removes that occurrence and appends `c` at the end,
the child sequence keeps its length, and re-adding `c` a second time leaves
the sequence unchanged. (As frozen, with merely *an* equal child present,
the claim fails: equality is not transitive, two distinct children can both
equal `c`, and then the second add removes the other one — see the
counterexample.) -/
theorem claim_C5_amended (s : GNode) (c : Item)
    (h1 : s.nude = false) (h2 : s.constant = false) (h3 : s.validItems = none)
    (h4 : s.items.countP (fun e => itemEq c e) = 1) :
    addNode s [.item c] [] = .ok (s.withItems (removeFirstItem s.items c ++ [c])) ∧
    (removeFirstItem s.items c ++ [c]).length = s.items.length ∧
    addNode (s.withItems (removeFirstItem s.items c ++ [c])) [.item c] [] =
      .ok (s.withItems (removeFirstItem s.items c ++ [c])) := by
  cases s with
  | mk nm al ps its nu co vp vi gp =>
    simp only [GNode.nude] at h1
    simp only [GNode.constant] at h2
    simp only [GNode.validItems] at h3
    simp only [GNode.items] at h4
    subst h1; subst h2; subst h3
    have hany : its.any (fun e => itemEq c e) = true := countP_pos_any _ _ (by omega)
    have hdrop : dropIt its c = .ok (removeFirstItem its c) := by
      unfold dropIt
      rw [if_pos hany]
    have hlen := (removeFirstItem_countP its c (by omega)).2
    have hrem0 : (removeFirstItem its c).countP (fun e => itemEq c e) = 0 := by
      have h0 := (removeFirstItem_countP its c (by omega)).1
      omega
    simp only [GNode.items, GNode.withItems]
    refine ⟨?_, ?_, ?_⟩
    · simp [addNode, GNode.constant, addItemsCore, addItemsLoop, GNode.validItems,
        GNode.items, dropThenAppend, hdrop, GNode.withItems]
    · simp only [List.length_append, List.length_cons, List.length_nil]
      omega
    · have hany2 : (removeFirstItem its c ++ [c]).any (fun e => itemEq c e) = true := by
        apply countP_pos_any
        simp [List.countP_append, hrem0, List.countP_cons, itemEq_refl]
      have hrm : removeFirstItem (removeFirstItem its c ++ [c]) c = removeFirstItem its c :=
        removeFirstItem_append_of_countP_zero _ _ hrem0
      have hdrop2 : dropIt (removeFirstItem its c ++ [c]) c =
          .ok (removeFirstItem (removeFirstItem its c ++ [c]) c) := by
        unfold dropIt
        rw [if_pos hany2]
      rw [hrm] at hdrop2
      simp [addNode, GNode.constant, GNode.withItems, addItemsCore, addItemsLoop,
        GNode.validItems, GNode.items, dropThenAppend, hdrop2]

/-- Witness for the amended C5 at a concrete node: one child equal to the
re-added `item2`. -/
theorem claim_C5_amended_witness :
    addNode (.mk ("node".toList) [] [] [.istr ("item1".toList), .istr ("item2".toList)]
        false false none none []) [.item (.istr ("item2".toList))] [] =
      .ok (.mk ("node".toList) [] [] [.istr ("item1".toList), .istr ("item2".toList)]
        false false none none []) := by
  have h := claim_C5_amended
    (.mk ("node".toList) [] [] [.istr ("item1".toList), .istr ("item2".toList)]
      false false none none [])
    (.istr ("item2".toList)) rfl rfl rfl (by rfl)
  exact h.1

/-- Counterexample to C5 as frozen: the node `n` with string children
`a1:` and `a2:` (two *distinct* children, since their aliases differ) gains
an anonymous node child `c` that is structurally equal to **both**. Adding
`c` once removes `a1:`; adding it a second time removes `a2:` instead of
re-placing `c`, so adding twice does not yield the sequence adding once
yields. All states are reached through the public constructor and `add`. -/
theorem claim_C5_counterexample :
    mkGNode ("n".toList) [.item (.istr ("a1:".toList)), .item (.istr ("a2:".toList))] [] =
      .ok (.mk ("n".toList) [] [] [.istr ("a1:".toList), .istr ("a2:".toList)]
        false false none none []) ∧
    mkGNode [] [] [] = .ok (.mk [] [] [] [] false false none none []) ∧
    itemEq (.inode (.mk [] [] [] [] false false none none [])) (.istr ("a1:".toList)) = true ∧
    itemEq (.inode (.mk [] [] [] [] false false none none [])) (.istr ("a2:".toList)) = true ∧
    addNode (.mk ("n".toList) [] [] [.istr ("a1:".toList), .istr ("a2:".toList)]
        false false none none [])
      [.item (.inode (.mk [] [] [] [] false false none none []))] [] =
      .ok (.mk ("n".toList) [] []
        [.istr ("a2:".toList), .inode (.mk [] [] [] [] false false none none [])]
        false false none none []) ∧
    addNode (.mk ("n".toList) [] []
        [.istr ("a2:".toList), .inode (.mk [] [] [] [] false false none none [])]
        false false none none [])
      [.item (.inode (.mk [] [] [] [] false false none none []))] [] =
      .ok (.mk ("n".toList) [] []
        [.inode (.mk [] [] [] [] false false none none []),
         .inode (.mk [] [] [] [] false false none none [])]
        false false none none []) ∧
    ([Item.inode (.mk [] [] [] [] false false none none []),
      Item.inode (.mk [] [] [] [] false false none none [])] ≠
     [Item.istr ("a2:".toList), Item.inode (.mk [] [] [] [] false false none none [])]) := by
  refine ⟨by rfl, by rfl, by rfl, by rfl, by rfl, by rfl, ?_⟩
  intro h
  exact Item.noConfusion (List.cons.inj h).1

/-! ## Claim C8: `validItems` validation -/

theorem initFields_error {nm : Str} {a : Option PyVal} {e : PyErr}
    (h : initFields nm a = .error e) : e = .invalidName := by
  unfold initFields at h
  split at h <;> (try dsimp only at h) <;> (try split at h) <;>
    first
      | exact (Except.error.inj h).symm
      | exact absurd h (by simp)

theorem mkNameNode_error {nm : Str} {e : PyErr} (h : mkNameNode nm = .error e) :
    e = .invalidName := initFields_error h

theorem dropIt_error {its : List Item} {it : Item} {e : PyErr}
    (h : dropIt its it = .error e) : e = .invalidName := by
  unfold dropIt at h
  split at h
  · simp at h
  · cases it with
    | istr t =>
      dsimp only at h
      cases hn : mkNameNode t with
      | error e2 =>
        rw [hn] at h
        (try dsimp only at h)
        exact (Except.error.inj h) ▸ mkNameNode_error hn
      | ok n =>
        rw [hn] at h
        (try dsimp only at h)
        cases hm : (its.any (fun x => itemEq (Item.inode n) x)) <;> simp [hm] at h
    | inode n => simp at h

theorem plainAddAll_error {v : List Item} {acc : List Item} {e : PyErr}
    (h : plainAddAll acc v = .error e) : e = .invalidName := by
  induction v generalizing acc with
  | nil => exact absurd h (by simp [plainAddAll])
  | cons it rest ih =>
    unfold plainAddAll at h
    cases hd : dropIt acc it with
    | error e2 =>
      rw [hd] at h
      exact (Except.error.inj h) ▸ dropIt_error hd
    | ok a2 =>
      rw [hd] at h
      exact ih h

theorem mkNodeFromDict_error {i : Str} {v : List Item} {e : PyErr}
    (h : mkNodeFromDict i v = .error e) : e = .invalidName := by
  unfold mkNodeFromDict at h
  cases hb : mkNameNode i with
  | error e2 =>
    rw [hb] at h
    exact (Except.error.inj h) ▸ mkNameNode_error hb
  | ok base =>
    rw [hb] at h
    simp only at h
    cases hp : plainAddAll [] v with
    | error e2 =>
      rw [hp] at h
      exact (Except.error.inj h) ▸ plainAddAll_error hp
    | ok its =>
      rw [hp] at h
      exact absurd h (by simp)

theorem dictAdd_error {entries : List (Str × List Item)} {its : List Item}
    {e : PyErr} {l : List Item} (h : dictAdd its entries = .error (e, l)) :
    e = .invalidName := by
  induction entries generalizing its with
  | nil => exact absurd h (by simp [dictAdd])
  | cons ent rest ih =>
    match ent with
    | (i, v) =>
      unfold dictAdd at h
      cases hm : mkNodeFromDict i v with
      | error e2 =>
        rw [hm] at h
        have h2 := Except.error.inj h
        have : e2 = e := congrArg Prod.fst h2
        exact this ▸ mkNodeFromDict_error hm
      | ok t =>
        rw [hm] at h
        simp only at h
        cases hd : dropIt its (.inode t) with
        | error e2 =>
          rw [hd] at h
          have h2 := Except.error.inj h
          have : e2 = e := congrArg Prod.fst h2
          exact this ▸ dropIt_error hd
        | ok its2 =>
          rw [hd] at h
          simp only at h
          exact ih h

/-- The child-processing step of one `_add_items` iteration (after the
validity check): replace-in-place, dict construction, or `TypeError`. -/
def addStep (its : List Item) : AddArg → Except (PyErr × List Item) (List Item)
  | .item it =>
    match dropThenAppend its it with
    | .ok its2 => .ok its2
    | .error e => .error (e, its)
  | .dict entries => dictAdd its entries
  | .bad _ => .error (.badItemType, its)

theorem addItemsLoop_cons (s : GNode) (a : AddArg) (rest : List AddArg) :
    addItemsLoop s (a :: rest) =
      match (match s.validItems with
             | some container =>
               if !(argMember container a) then some PyErr.invalidItem else none
             | none => none) with
      | some e => .error (e, s)
      | none =>
        match addStep s.items a with
        | .error (e, its2) => .error (e, s.withItems its2)
        | .ok its2 => addItemsLoop (s.withItems its2) rest := by
  cases a <;> rfl

theorem addStep_error_kind {its : List Item} {a : AddArg} {e : PyErr} {l : List Item}
    (h : addStep its a = .error (e, l)) :
    e = .invalidName ∨ e = .badItemType := by
  cases a with
  | item it =>
    unfold addStep at h
    dsimp only at h
    cases hd : dropThenAppend its it with
    | ok its2 => rw [hd] at h; simp at h
    | error e2 =>
      rw [hd] at h
      simp only at h
      have h3 : e2 = e := congrArg Prod.fst (Except.error.inj h)
      left
      rw [← h3]
      unfold dropThenAppend at hd
      cases hdi : dropIt its it with
      | error e3 =>
        rw [hdi] at hd
        exact (Except.error.inj hd) ▸ dropIt_error hdi
      | ok _ => rw [hdi] at hd; simp at hd
  | dict entries =>
    unfold addStep at h
    dsimp only at h
    exact Or.inl (dictAdd_error h)
  | bad v =>
    unfold addStep at h
    dsimp only at h
    have h3 := Except.error.inj h
    exact Or.inr (congrArg Prod.fst h3).symm

/-- Claim C8, amended to non-transparent mutable nodes: adding a child fails
with `InvalidItem` exactly when `validItems` is set (not `None`) and the
child is not a member — so an empty `validItems` rejects every addition and
`None` places no restriction. (For a transparent node the receiver's own
`validItems` is not consulted at all: the call is delegated to the wrapped
child — see the counterexample.) -/
theorem claim_C8_amended (s : GNode) (c : AddArg)
    (h1 : s.nude = false) (h2 : s.constant = false) :
    (∃ s2, addNode s [c] [] = .error (.invalidItem, s2)) ↔
      (∃ container, s.validItems = some container ∧ argMember container c = false) := by
  have hU : addNode s [c] [] = addItemsLoop s [c] := by
    cases s with
    | mk nm al ps its nu co vp vi gp =>
      simp only [GNode.nude] at h1
      simp only [GNode.constant] at h2
      subst h1; subst h2
      simp [addNode, GNode.constant, addItemsCore]
  rw [hU, addItemsLoop_cons]
  cases hvi : s.validItems with
  | none =>
    simp only []
    constructor
    · rintro ⟨s2, hs2⟩
      exfalso
      cases hstep : addStep s.items c with
      | error epair =>
        rw [hstep] at hs2
        match epair with
        | (e0, l0) =>
          simp only at hs2
          have he : e0 = PyErr.invalidItem :=
            congrArg Prod.fst (Except.error.inj hs2)
          rcases addStep_error_kind hstep with h | h <;> rw [h] at he <;>
            exact PyErr.noConfusion he
      | ok its2 =>
        rw [hstep] at hs2
        simp [addItemsLoop] at hs2
    · rintro ⟨container, hc, _⟩
      exact Option.noConfusion hc
  | some container =>
    by_cases hm : argMember container c = true
    · simp only [hm, Bool.not_true, Bool.false_eq_true, if_neg, not_false_eq_true]
      constructor
      · rintro ⟨s2, hs2⟩
        exfalso
        cases hstep : addStep s.items c with
        | error epair =>
          rw [hstep] at hs2
          match epair with
          | (e0, l0) =>
            simp only at hs2
            have he : e0 = PyErr.invalidItem :=
              congrArg Prod.fst (Except.error.inj hs2)
            rcases addStep_error_kind hstep with h | h <;> rw [h] at he <;>
              exact PyErr.noConfusion he
        | ok its2 =>
          rw [hstep] at hs2
          simp [addItemsLoop] at hs2
      · rintro ⟨container2, hc2, hm2⟩
        rw [← Option.some.inj hc2] at hm2
        rw [hm] at hm2
        exact Bool.noConfusion hm2
    · have hm2 : argMember container c = false := by
        cases harg : argMember container c
        · rfl
        · exact absurd harg hm
      simp only [hm2, Bool.not_false, if_pos]
      constructor
      · intro _
        exact ⟨container, rfl, hm2⟩
      · intro _
        exact ⟨s, rfl⟩

/-- Witness for the amended C8: a node with `validItems` `
set to two field names rejects a third with `InvalidItem`. -/
theorem claim_C8_amended_witness :
    ∃ s2, addNode (.mk ("n".toList) [] [] [] false false none
        (some (.plist [.pstr ("f1".toList), .pstr ("f2".toList)])) [])
      [.item (.istr ("f3".toList))] [] = .error (.invalidItem, s2) :=
  (claim_C8_amended (.mk ("n".toList) [] [] [] false false none
        (some (.plist [.pstr ("f1".toList), .pstr ("f2".toList)])) [])
      (.item (.istr ("f3".toList))) rfl rfl).mpr
    ⟨.plist [.pstr ("f1".toList), .pstr ("f2".toList)], rfl, rfl⟩

/-- Counterexample to C8 as frozen: a transparent wrapper whose own
`validItems` is the empty set still accepts any child — the call is
delegated to the wrapped child, whose `validItems` is `None` — so the
"empty set rejects every addition" rule does not apply to the node whose
`validItems` was set. The wrapper state is reached through the public
constructor. -/
theorem claim_C8_counterexample :
    mkGNode ("w".toList) []
        [(("_node".toList), .pnode (.mk [] [] [] [] false false none none [])),
         (("_valid_items".toList), .plist [])] =
      .ok (.mk ("w".toList) [] [] [.inode (.mk [] [] [] [] false false none none [])]
        true false none (some (.plist [])) []) ∧
    argMember (.plist []) (.item (.istr ("x".toList))) = false ∧
    addNode (.mk ("w".toList) [] [] [.inode (.mk [] [] [] [] false false none none [])]
        true false none (some (.plist [])) [])
      [.item (.istr ("x".toList))] [] =
      .ok (.mk ("w".toList) [] []
        [.inode (.mk [] [] [] [.istr ("x".toList)] false false none none [])]
        true false none (some (.plist [])) []) :=
  ⟨rfl, rfl, rfl⟩

/-! ## Claim C3: state after a failed `add` -/

theorem withItems_self (s : GNode) : s.withItems s.items = s := by
  cases s
  rfl

/-- Claim C3, amended: atomicity holds per element, not per call. A failing
`add` with a **single** child argument leaves the node exactly in its prior
state, and a failing `add` with a single plain keyword argument leaves it in
its prior state except that `_gid_path` has been reset to the empty string
(which `_add_params` always does before validating). A call that supplies
several elements keeps the mutations of the elements processed before the
failing one — see the counterexample. -/
theorem claim_C3_amended :
    (∀ (s : GNode) (c : Item) (e : PyErr) (s2 : GNode), s.nude = false →
      s.constant = false →
      addNode s [.item c] [] = .error (e, s2) → s2 = s) ∧
    (∀ (s : GNode) (i : Str) (v : PyVal) (e : PyErr) (s2 : GNode), s.constant = false →
      i ∉ [("_node".toList), ("_valid_params".toList), ("_valid_items".toList),
           ("_gid_path".toList)] →
      addNode s [] [(i, v)] = .error (e, s2) → s2 = s.withGidPath []) := by
  constructor
  · intro s c e s2 h1 h2 h
    have hU : addNode s [.item c] [] = addItemsLoop s [.item c] := by
      cases s with
      | mk nm al ps its nu co vp vi gp =>
        simp only [GNode.nude] at h1
        simp only [GNode.constant] at h2
        subst h1; subst h2
        simp [addNode, GNode.constant, addItemsCore]
    rw [hU, addItemsLoop_cons] at h
    cases hvi : s.validItems with
    | some container =>
      rw [hvi] at h
      by_cases hm : argMember container (.item c) = true
      · simp only [hm, Bool.not_true, Bool.false_eq_true, if_neg, not_false_eq_true] at h
        cases hstep : addStep s.items (.item c) with
        | error epair =>
          rw [hstep] at h
          match epair with
          | (e0, l0) =>
            simp only [addStep] at hstep
            cases hd : dropThenAppend s.items c with
            | ok its2 => rw [hd] at hstep; simp at hstep
            | error e2 =>
              rw [hd] at hstep
              simp only at hstep
              have hl : l0 = s.items := (congrArg Prod.snd (Except.error.inj hstep)).symm
              simp only at h
              have := Except.error.inj h
              have hs2 : s.withItems l0 = s2 := congrArg Prod.snd this
              rw [← hs2, hl, withItems_self]
        | ok its2 =>
          rw [hstep] at h
          simp [addItemsLoop] at h
      · have hm2 : argMember container (.item c) = false := by
          cases harg : argMember container (.item c)
          · rfl
          · exact absurd harg hm
        simp only [hm2, Bool.not_false, if_pos] at h
        exact (congrArg Prod.snd (Except.error.inj h)).symm
    | none =>
      rw [hvi] at h
      cases hstep : addStep s.items (.item c) with
      | error epair =>
        rw [hstep] at h
        match epair with
        | (e0, l0) =>
          simp only [addStep] at hstep
          cases hd : dropThenAppend s.items c with
          | ok its2 => rw [hd] at hstep; simp at hstep
          | error e2 =>
            rw [hd] at hstep
            simp only at hstep
            have hl : l0 = s.items := (congrArg Prod.snd (Except.error.inj hstep)).symm
            simp only at h
            have := Except.error.inj h
            have hs2 : s.withItems l0 = s2 := congrArg Prod.snd this
            rw [← hs2, hl, withItems_self]
      | ok its2 =>
        rw [hstep] at h
        simp [addItemsLoop] at h
  · intro s i v e s2 h2 hns h
    simp only [List.mem_cons, List.mem_singleton, not_or] at hns
    obtain ⟨hn1, hn2, hn3, hn4⟩ := hns
    have hb1 : (i == ("_node".toList)) = false := by simpa using hn1
    have hb2 : (i == ("_valid_params".toList)) = false := by simpa using hn2
    have hb3 : (i == ("_valid_items".toList)) = false := by simpa using hn3
    have hb4 : (i == ("_gid_path".toList)) = false := by simpa using hn4
    unfold addNode at h
    rw [if_neg (by simp [h2])] at h
    simp only [List.isEmpty_cons, Bool.false_eq_true, if_neg, not_false_eq_true] at h
    unfold addParamsCore at h
    simp only [kwLookup, kwRemove, List.find?, List.filter, hb1, hb2, hb3, hb4,
      Option.map_none, Option.map, bne, Bool.not_false] at h
    cases hp : paramsLoop (s.withGidPath []) [(i, v)] with
    | error epair =>
      rw [hp] at h
      simp only at h
      have hse : epair = (e, s2) := Except.error.inj h
      unfold paramsLoop at hp
      dsimp only at hp
      split at hp
      · have h5 := Except.error.inj hp
        rw [hse] at h5
        exact (congrArg Prod.snd h5).symm
      · unfold paramsLoop at hp
        simp at hp
    | ok s1 =>
      rw [hp] at h
      simp at h

/-- Counterexample to C3 as frozen: a single `add` call supplying two
children, of which the second is rejected by `validItems`, raises
`InvalidItem` but leaves the first child appended — the node is *not* in its
prior state. The starting node is built by the public constructor (its
`_items` list is empty); after the failing call the list holds `a`. -/
theorem claim_C3_counterexample :
    mkGNode ("n".toList) [] [(("_valid_items".toList), .plist [.pstr ("a".toList)])] =
      .ok (.mk ("n".toList) [] [] [] false false none (some (.plist [.pstr ("a".toList)])) []) ∧
    addNode (.mk ("n".toList) [] [] [] false false none
        (some (.plist [.pstr ("a".toList)])) [])
      [.item (.istr ("a".toList)), .item (.istr ("c".toList))] [] =
      .error (.invalidItem,
        .mk ("n".toList) [] [] [.istr ("a".toList)] false false none
          (some (.plist [.pstr ("a".toList)])) []) ∧
    ([Item.istr ("a".toList)] ≠ ([] : List Item)) := by
  refine ⟨rfl, rfl, ?_⟩
  simp

/-! ## Claim C4: transparent (nude) delegation -/

theorem withGidPath_params (s : GNode) : (s.withGidPath []).params = s.params := by
  cases s
  rfl

theorem withGidPath_gid (s : GNode) : (s.withGidPath []).gidPath = [] := by
  cases s
  rfl

theorem withGidPath_validParams (s : GNode) :
    (s.withGidPath []).validParams = s.validParams := by
  cases s
  rfl

/-- Claim C4, amended: for a transparent (nude) wrapper, only **item**
mutation through `add` is delegated to the single wrapped child — the
wrapper's own item list keeps just the (updated) child. **Argument**
mutation is *not* delegated: `_add_params` has no nude branch, so the
arguments land in the wrapper's own map (after the usual `_gid_path` reset)
and the wrapped child's map is untouched; the `params()` accessor keeps
reporting the wrapped child's map. -/
theorem claim_C4_amended :
    (∀ (w c : GNode) (tail : List Item) (args : List AddArg) (c2 : GNode),
      w.nude = true → w.constant = false → w.items = .inode c :: tail →
      c.constant = false → args ≠ [] → addItemsCore c args = .ok c2 →
      addNode w args [] = .ok (w.withItems (.inode c2 :: tail))) ∧
    (∀ (w : GNode) (i : Str) (v : PyVal), w.constant = false → w.validParams = none →
      i ∉ [("_node".toList), ("_valid_params".toList), ("_valid_items".toList),
           ("_gid_path".toList)] →
      addNode w [] [(i, v)] =
        .ok ((w.withGidPath []).withParams
          (setParam w.params (i.dropWhile (· = '_'))
            (if i.dropWhile (· = '_') == ("id".toList) then getGid [] v else v)))) ∧
    (∀ (w c : GNode) (tail : List Item), w.nude = true → w.items = .inode c :: tail →
      paramsAcc w = paramsAcc c) := by
  refine ⟨?_, ?_, ?_⟩
  · intro w c tail args c2 h1 h2 hit h3 h4 h5
    cases w with
    | mk nm al ps its nu co vp vi gp =>
      simp only [GNode.nude] at h1
      simp only [GNode.constant] at h2
      simp only [GNode.items] at hit
      subst h1; subst h2; subst hit
      unfold addNode
      rw [if_neg (by simp [GNode.constant])]
      simp only [List.isEmpty_nil, if_pos]
      rw [if_neg (by simp [h4])]
      unfold addItemsCore
      dsimp only
      rw [if_neg (by simp [h3])]
      rw [if_neg (by simp [List.isEmpty_eq_true, h4])]
      rw [h5]
      simp [GNode.withItems]
  · intro w i v h2 hvp hns
    simp only [List.mem_cons, List.mem_singleton, not_or] at hns
    obtain ⟨hn1, hn2, hn3, hn4⟩ := hns
    have hb1 : (i == ("_node".toList)) = false := by simpa using hn1
    have hb2 : (i == ("_valid_params".toList)) = false := by simpa using hn2
    have hb3 : (i == ("_valid_items".toList)) = false := by simpa using hn3
    have hb4 : (i == ("_gid_path".toList)) = false := by simpa using hn4
    unfold addNode
    rw [if_neg (by simp [h2])]
    simp only [List.isEmpty_cons, Bool.false_eq_true, if_neg, not_false_eq_true]
    unfold addParamsCore
    simp only [kwLookup, kwRemove, List.find?, List.filter, hb1, hb2, hb3, hb4,
      Option.map_none, Option.map, bne, Bool.not_false]
    unfold paramsLoop
    dsimp only
    rw [withGidPath_gid, withGidPath_validParams, hvp, withGidPath_params]
    simp [paramsLoop]
  · intro w c tail h1 hit
    cases w with
    | mk nm al ps its nu co vp vi gp =>
      simp only [GNode.nude] at h1
      simp only [GNode.items] at hit
      subst h1; subst hit
      rfl

/-- Counterexample to C4 as frozen: a transparent wrapper built by the
public constructor gains an argument through `add(x=1)` on **its own**
argument map — the wrapped child's map stays empty, visible both in the
resulting state and through the `params()` accessor. -/
theorem claim_C4_counterexample :
    mkGNode ("w".toList) []
        [(("_node".toList), .pnode (.mk [] [] [] [] false false none none []))] =
      .ok (.mk ("w".toList) [] [] [.inode (.mk [] [] [] [] false false none none [])]
        true false none none []) ∧
    addNode (.mk ("w".toList) [] [] [.inode (.mk [] [] [] [] false false none none [])]
        true false none none []) [] [(("x".toList), .pint 1)] =
      .ok (.mk ("w".toList) [] [(("x".toList), .pint 1)]
        [.inode (.mk [] [] [] [] false false none none [])] true false none none []) ∧
    (GNode.params (.mk ("w".toList) [] [(("x".toList), .pint 1)]
        [.inode (.mk [] [] [] [] false false none none [])] true false none none []) =
      [(("x".toList), .pint 1)]) ∧
    paramsAcc (.mk ("w".toList) [] [(("x".toList), .pint 1)]
        [.inode (.mk [] [] [] [] false false none none [])] true false none none []) =
      .ok [] :=
  ⟨rfl, rfl, rfl, rfl⟩

/-! ## Claim C9: `update` skips a string entry matching an existing node child -/

theorem gnodeSize_pos (n : GNode) : 0 < gnodeSize n := by
  cases n
  unfold gnodeSize
  omega

/-- Claim C9: if a child of `other` is a plain string whose lookup in `self`
finds a child that is itself a node, `update(self, other)` leaves `self`
untouched for that entry — the string is neither appended nor merged.
Stated for `other` carrying exactly that string child (and no arguments),
where untouched means `update` returns `self` unchanged. -/
theorem claim_C9 (s other : GNode) (i : Str) (e : GNode)
    (h1 : s.nude = false) (h2 : s.constant = false)
    (h3 : other.nude = false) (h4 : other.items = [.istr i]) (h5 : other.params = [])
    (h6 : s.items.find? (fun v => itemEq v (.istr i)) = some (.inode e)) :
    updateNode s other = .ok s := by
  unfold updateNode
  cases hgs : gnodeSize other with
  | zero => exact absurd hgs (by have := gnodeSize_pos other; omega)
  | succ f =>
    unfold updCore
    rw [if_neg (by simp [h2])]
    rw [if_neg (by simp [h1])]
    have hacc : itemsAcc other = .ok [.istr i] := by
      cases other with
      | mk nm al ps its nu co vp vi gp =>
        simp only [GNode.nude] at h3
        simp only [GNode.items] at h4
        subst h3; subst h4
        rfl
    have hpacc : paramsAcc other = .ok [] := by
      cases other with
      | mk nm al ps its nu co vp vi gp =>
        simp only [GNode.nude] at h3
        simp only [GNode.params] at h5
        subst h3; subst h5
        rfl
    rw [hacc]
    have hget : getItemOpt s (.istr i) = .ok (some (.inode e)) := by
      cases s with
      | mk nm al ps its nu co vp vi gp =>
        simp only [GNode.nude] at h1
        simp only [GNode.items] at h6
        subst h1
        unfold getItemOpt
        dsimp only
        rw [h6]
    have hloop : updItems f s [.istr i] = .ok s := by
      unfold updItems
      rw [hget]
      dsimp only
      simp only [updItems]
    dsimp only
    rw [hloop, hpacc]
    simp [addNode, h2]

/-- Witness for C9: `p { nodes { id } }` updated with `o { nodes }` stays
`p { nodes { id } }`. -/
theorem claim_C9_witness :
    updateNode
      (.mk ("p".toList) [] []
        [.inode (.mk ("nodes".toList) [] [] [.istr ("id".toList)] false false none none [])]
        false false none none [])
      (.mk ("o".toList) [] [] [.istr ("nodes".toList)] false false none none []) =
      .ok (.mk ("p".toList) [] []
        [.inode (.mk ("nodes".toList) [] [] [.istr ("id".toList)] false false none none [])]
        false false none none []) :=
  claim_C9 _ _ ("nodes".toList)
    (.mk ("nodes".toList) [] [] [.istr ("id".toList)] false false none none [])
    rfl rfl rfl rfl rfl rfl

/-! ## Claim C2: parsing bare identifiers and the example query -/

/-- Counterexample to C2 as frozen: parsing
`node(id: "gid://12") { item1 item2 item3 }` yields three children that are
**`GraphQLNode` objects**, not plain strings — the parser wraps every bare
identifier in `GraphQLNode(token)` (`nodes.insert(0, GraphQLNode(token,
*items, **params))`), and the repository's own test asserts
`all(isinstance(x, GraphQLNode) for x in node.items())`. -/
theorem claim_C2_counterexample :
    stringToGraphql ("node(id: \"gid://12\") \x7b item1 item2 item3 \x7d".toList) [] =
      .ok [.mk ("node".toList) [] [(("id".toList), .pstr ("gid://12".toList))]
        [.inode (.mk ("item1".toList) [] [] [] false false none none []),
         .inode (.mk ("item2".toList) [] [] [] false false none none []),
         .inode (.mk ("item3".toList) [] [] [] false false none none [])]
        false false none none []] ∧
    (([.inode (.mk ("item1".toList) [] [] [] false false none none []),
       .inode (.mk ("item2".toList) [] [] [] false false none none []),
       .inode (.mk ("item3".toList) [] [] [] false false none none [])] : List Item).all
        (fun it => match it with | .inode _ => true | .istr _ => false)) = true :=
  ⟨rfl, rfl⟩

/-- Claim C2, amended: the input parses into a single node named `node` with
argument `id = "gid://12"` and three children `item1 item2 item3` that are
(childless, argument-less) **node** objects rather than plain strings, and
re-serializing reproduces the identical input text. -/
theorem claim_C2_amended :
    stringToGraphql ("node(id: \"gid://12\") \x7b item1 item2 item3 \x7d".toList) [] =
      .ok [.mk ("node".toList) [] [(("id".toList), .pstr ("gid://12".toList))]
        [.inode (.mk ("item1".toList) [] [] [] false false none none []),
         .inode (.mk ("item2".toList) [] [] [] false false none none []),
         .inode (.mk ("item3".toList) [] [] [] false false none none [])]
        false false none none []] ∧
    reprNode (.mk ("node".toList) [] [(("id".toList), .pstr ("gid://12".toList))]
        [.inode (.mk ("item1".toList) [] [] [] false false none none []),
         .inode (.mk ("item2".toList) [] [] [] false false none none []),
         .inode (.mk ("item3".toList) [] [] [] false false none none [])]
        false false none none []) =
      ("node(id: \"gid://12\") \x7b item1 item2 item3 \x7d".toList) :=
  ⟨rfl, rfl⟩

/-! ## Claim C7: `$name` variable resolution -/

/-- Counterexample to C7 as frozen: the failure is **not** equivalent to the
name being absent — the source raises whenever `env.get(token)` is falsy
(`if not tmp`), so a name that is present but mapped to a falsy value (here
the empty string) also fails with `UndefinedVariable`. -/
theorem claim_C7_counterexample :
    kwLookup [(("x".toList), PyVal.pstr [])] ("x".toList) = some (.pstr []) ∧
    stringToGraphql ("n(a: $x)".toList) [(("x".toList), .pstr [])] =
      .error (.undefinedVar ("x".toList)) :=
  ⟨rfl, rfl⟩

set_option maxHeartbeats 3000000 in
/-- Claim C7, amended (stated on the representative query `n(a: $x)` with a
singleton environment): resolution fails with `UndefinedVariable` iff the
name is absent **or its value is falsy**; a truthy value is substituted as
the argument value — becoming `True`/`False` when it compares equal to
`"true"`/`"false"`, and an enum value otherwise. -/
theorem claim_C7_amended :
    (stringToGraphql ("n(a: $x)".toList) [] = .error (.undefinedVar ("x".toList))) ∧
    (∀ v : PyVal, pyTruthy v = false →
      stringToGraphql ("n(a: $x)".toList) [(("x".toList), v)] =
        .error (.undefinedVar ("x".toList))) ∧
    (∀ v : PyVal, pyTruthy v = true →
      stringToGraphql ("n(a: $x)".toList) [(("x".toList), v)] =
        .ok [.mk ("n".toList) []
          [(("a".toList),
            if pyEqLit v ("true".toList) then .pbool true
            else if pyEqLit v ("false".toList) then .pbool false
            else .penum (enumNameOf v))] [] false false none none []]) := by
  refine ⟨rfl, ?_, ?_⟩
  · intro v hv
    cases v with
    | pstr s =>
      cases s with
      | nil => rfl
      | cons c cs => simp [pyTruthy] at hv
    | pint n =>
      cases n with
      | ofNat m =>
        cases m with
        | zero => rfl
        | succ k =>
          simp [pyTruthy] at hv
          exact absurd hv (by omega)
      | negSucc m => simp [pyTruthy] at hv
    | pbool b =>
      cases b with
      | false => rfl
      | true => simp [pyTruthy] at hv
    | penum s => simp [pyTruthy] at hv
    | pnode n => simp [pyTruthy] at hv
    | plist xs =>
      cases xs with
      | nil => rfl
      | cons y ys => simp [pyTruthy] at hv
    | pnone => rfl
  · intro v hv
    cases v with
    | pstr s =>
      cases s with
      | nil => simp [pyTruthy] at hv
      | cons c cs => rfl
    | pint n =>
      cases n with
      | ofNat m =>
        cases m with
        | zero => simp [pyTruthy] at hv
        | succ k => rfl
      | negSucc m => rfl
    | pbool b =>
      cases b with
      | false => simp [pyTruthy] at hv
      | true => rfl
    | penum s => rfl
    | pnode n => rfl
    | plist xs =>
      cases xs with
      | nil => simp [pyTruthy] at hv
      | cons y ys => rfl
    | pnone => simp [pyTruthy] at hv

/-- Witness for the amended C7: the value `hi` is substituted and wrapped as
an enum. -/
theorem claim_C7_amended_witness :
    stringToGraphql ("n(a: $x)".toList) [(("x".toList), .pstr ("hi".toList))] =
      .ok [.mk ("n".toList) [] [(("a".toList), .penum ("hi".toList))] []
        false false none none []] :=
  (claim_C7_amended.2.2 (.pstr ("hi".toList)) rfl).trans rfl

/-! ## Claim C1: round-trip through the textual codec

The claim as frozen fails (see `claim_C1_counterexample`): the serializer
does not escape string values, so e.g. a backslash in an argument value
produces text the tokenizer cannot lex. The amended claim proves the
round-trip for the well-formedness class `goodNode` below, for both
serialization modes, under the code's own structural equality (`__eq__`,
which compares display identifiers). -/

/-- A plain character for string argument values: not a quote, not a
backslash, not a control character, not a line/paragraph separator. -/
def plainCh (c : Char) : Bool :=
  !(c = '"') && !(c = '\\') && !(isCtrlCh c) &&
  !(c = Char.ofNat 0x2028) && !(c = Char.ofNat 0x2029) && !(isPySpace c) || (c = ' ')

/-- An acceptable argument key: an identifier that does not start with an
underscore (so it cannot collide with the constructor's special keywords). -/
def goodKey (k : Str) : Bool :=
  isIdentStr k && (match k with | c :: _ => !(c = '_') | [] => false)

mutual

/-- Well-formed argument values for the round-trip: plain strings,
non-negative ints, booleans, identifier-named enums, nested objects with
well-formed arguments. Lists are excluded (their bracket rendering is not
lexable) and so is `None`. -/
def goodVal : PyVal → Bool
  | .pstr s => s.all plainCh
  | .pint n => decide (0 ≤ n)
  | .pbool _ => true
  | .penum s => isIdentStr s
  | .pnode n => goodNodeParams n
  | .plist _ => false
  | .pnone => false

/-- The argument constraint for a node used as a nested-object value (only
its arguments are rendered). -/
def goodNodeParams : GNode → Bool
  | .mk _ _ ps _ _ _ _ _ _ => goodParams ps

/-- Well-formed argument lists: acceptable keys, well-formed values. -/
def goodParams : List (Str × PyVal) → Bool
  | [] => true
  | (k, v) :: rest => goodKey k && goodVal v && goodParams rest

/-- A well-formed string child: a bare identifier or an
`alias: name` pair of identifiers. -/
def goodItem : Item → Bool
  | .istr s =>
    (isIdentStr s ||
      (match splitCh ':' s with
       | [a, b] =>
         isIdentStr a && (match b with | ' ' :: n => isIdentStr n | _ => false)
       | _ => false))
  | .inode n => goodNode n

/-- Well-formed child lists. -/
def goodItems : List Item → Bool
  | [] => true
  | it :: rest => goodItem it && goodItems rest

/-- The round-trip class: identifier name, empty or identifier alias,
well-formed arguments and children, not transparent. -/
def goodNode : GNode → Bool
  | .mk nm al ps its nude _ _ _ _ =>
    isIdentStr nm && (al.isEmpty || isIdentStr al) && goodParams ps &&
    goodItems its && !nude

end

/-- Plain join with separator (the normal form `List.intercalate` reduces
to). -/
def joinS (sep : Str) : List Str → Str
  | [] => []
  | [x] => x
  | x :: y :: rest => x ++ sep ++ joinS sep (y :: rest)

theorem intercalate_eq_joinS (sep : Str) (l : List Str) :
    List.intercalate sep l = joinS sep l := by
  induction l with
  | nil => simp [List.intercalate, joinS]
  | cons x rest ih =>
    cases rest with
    | nil => simp [List.intercalate, joinS]
    | cons y t =>
      simp only [joinS]
      rw [← ih]
      simp [List.intercalate, List.intersperse]

theorem joinS_cons_ne (sep : Str) (x : Str) (zs : List Str) (h : zs ≠ []) :
    joinS sep (x :: zs) = x ++ sep ++ joinS sep zs := by
  cases zs with
  | nil => exact absurd rfl h
  | cons y t => simp [joinS]

theorem joinS_append (sep : Str) (a b : List Str) (ha : a ≠ []) (hb : b ≠ []) :
    joinS sep (a ++ b) = joinS sep a ++ sep ++ joinS sep b := by
  induction a with
  | nil => exact absurd rfl ha
  | cons x xs ih =>
    cases xs with
    | nil =>
      cases b with
      | nil => exact absurd rfl hb
      | cons y t => simp [joinS]
    | cons z zs =>
      have h2 := ih (by simp)
      rw [List.cons_append]
      rw [joinS_cons_ne sep x ((z :: zs) ++ b) (by simp)]
      rw [h2]
      rw [joinS_cons_ne sep x (z :: zs) (by simp)]
      simp [List.append_assoc]

theorem joinS_chunk (sep : Str) (ys zs : List Str) (hy : ys ≠ []) :
    joinS sep (joinS sep ys :: zs) = joinS sep (ys ++ zs) := by
  cases zs with
  | nil => simp [joinS]
  | cons z t =>
    rw [joinS_append sep ys (z :: t) hy (by simp)]
    simp [joinS]

mutual

/-- The flat line list of a (non-transparent) node's rendering: the atomic
lines that both serialization modes join, each with its indentation
prefix. -/
def flatL : GNode → Int → Int → List Str
  | .mk nm al ps its _ _ _ _ _, ind, size =>
    let spaces := spacesN (ind - size)
    let field0 : Str := if al ≠ [] then al ++ ':' :: ' ' :: nm else nm
    let field1 := if !ps.isEmpty then field0 ++ '(' :: paramsToStr ps ++ [')'] else field0
    if !its.isEmpty then
      (spaces ++ field1 ++ ' ' :: [lbrace]) ::
        (flatI its ind size ++ [spaces ++ [rbrace]])
    else [spaces ++ field1]

/-- The flat line lists of a child list. -/
def flatI : List Item → Int → Int → List Str
  | [], _, _ => []
  | .istr s :: rest, ind, size => (spacesN ind ++ s) :: flatI rest ind size
  | .inode c :: rest, ind, size =>
    flatL c (if ind > 0 then ind + 2 else 0) size ++ flatI rest ind size

end

theorem flatL_ne_nil (n : GNode) (ind size : Int) : flatL n ind size ≠ [] := by
  cases n with
  | mk nm al ps its nu co vp vi gp =>
    unfold flatL
    dsimp only
    split <;> simp

mutual

/-- For a good node the serializer is the plain join of the flat lines, in
any mode. -/
theorem toStr_flat (n : GNode) (h : goodNode n = true) (ind size : Int) (sep : Str) :
    toStr n ind size sep false = joinS sep (flatL n ind size) := by
  cases n with
  | mk nm al ps its nu co vp vi gp =>
    unfold goodNode at h
    simp only [Bool.and_eq_true] at h
    obtain ⟨⟨⟨⟨hnm, hal⟩, hps⟩, hits⟩, hnu⟩ := h
    have hnuf : nu = false := by
      cases nu
      · rfl
      · simp at hnu
    subst hnuf
    have hnmne : nm ≠ [] := by
      cases nm
      · simp [isIdentStr] at hnm
      · simp
    have hf0ne : (if al ≠ [] then al ++ ':' :: ' ' :: nm else nm) ≠ [] := by
      split
      · simp
      · exact hnmne
    unfold toStr flatL
    dsimp only
    simp only [Bool.false_eq_true, if_false, not_false_eq_true, if_true,
      Bool.not_false, Bool.and_true]
    by_cases hie : its.isEmpty = true
    · have hcond : ¬((!its.isEmpty) = true) := by simp [hie]
      rw [if_neg hcond, if_neg hcond]
      rw [intercalate_eq_joinS]
    · have hcond : (!its.isEmpty) = true := by simp [hie]
      rw [if_pos hcond, if_pos hcond]
      set F1 : Str := (if (!ps.isEmpty) = true then
          (if al ≠ [] then al ++ ':' :: ' ' :: nm else nm) ++ '(' :: paramsToStr ps ++ [')']
          else (if al ≠ [] then al ++ ':' :: ' ' :: nm else nm)) with hF1
      have hf1ne : F1 ≠ [] := by
        rw [hF1]
        split
        · simp
        · exact hf0ne
      rw [if_pos hf1ne]
      rw [if_pos (show (F1 ++ [' ']) ++ [lbrace] ≠ [] by simp)]
      rw [show ((F1 ++ [' ']) ++ [lbrace] : Str) = F1 ++ ' ' :: [lbrace] by simp]
      rw [intercalate_eq_joinS, List.singleton_append, List.cons_append]
      rw [joinS_cons_ne sep (spacesN (ind - size) ++ (F1 ++ ' ' :: [lbrace]))
            (itemsToStr its ind size sep false ++ [spacesN (ind - size) ++ [rbrace]])
            (by simp)]
      rw [joinS_cons_ne sep (spacesN (ind - size) ++ F1 ++ [' ', lbrace])
            (flatI its ind size ++ [spacesN (ind - size) ++ [rbrace]])
            (by simp)]
      rw [itemsToStr_flat its hits ind size sep [spacesN (ind - size) ++ [rbrace]]
            (by simp)]
      simp [List.append_assoc]
termination_by gnodeSize n
decreasing_by
  all_goals subst_vars
  all_goals simp [gnodeSize, itemsSize]
  all_goals omega

/-- Child lists: the rendered chunks joined with any suffix equal the flat
lines joined with it. -/
theorem itemsToStr_flat (its : List Item) (h : goodItems its = true) (ind size : Int)
    (sep : Str) (zs : List Str) (hzs : zs ≠ []) :
    joinS sep (itemsToStr its ind size sep false ++ zs) =
      joinS sep (flatI its ind size ++ zs) := by
  cases its with
  | nil => rfl
  | cons it rest =>
    unfold goodItems at h
    simp only [Bool.and_eq_true] at h
    obtain ⟨hit, hrest⟩ := h
    cases it with
    | istr s =>
      unfold itemsToStr flatI
      rw [List.cons_append, List.cons_append]
      rw [joinS_cons_ne sep (spacesN ind ++ s)
            (itemsToStr rest ind size sep false ++ zs) (by simp [hzs])]
      rw [joinS_cons_ne sep (spacesN ind ++ s)
            (flatI rest ind size ++ zs) (by simp [hzs])]
      rw [itemsToStr_flat rest hrest ind size sep zs hzs]
    | inode c =>
      unfold itemsToStr flatI
      rw [List.cons_append]
      rw [toStr_flat c hit (if ind > 0 then ind + 2 else 0) size sep]
      rw [joinS_chunk sep (flatL c (if ind > 0 then ind + 2 else 0) size)
            (itemsToStr rest ind size sep false ++ zs)
            (flatL_ne_nil c (if ind > 0 then ind + 2 else 0) size)]
      rw [List.append_assoc (flatL c (if ind > 0 then ind + 2 else 0) size)
            (flatI rest ind size) zs]
      rw [joinS_append sep (flatL c (if ind > 0 then ind + 2 else 0) size)
            (itemsToStr rest ind size sep false ++ zs)
            (flatL_ne_nil c (if ind > 0 then ind + 2 else 0) size) (by simp [hzs])]
      rw [joinS_append sep (flatL c (if ind > 0 then ind + 2 else 0) size)
            (flatI rest ind size ++ zs)
            (flatL_ne_nil c (if ind > 0 then ind + 2 else 0) size) (by simp [hzs])]
      rw [itemsToStr_flat rest hrest ind size sep zs hzs]
termination_by itemsSize its
decreasing_by
  all_goals subst_vars
  all_goals simp [gnodeSize, itemsSize]
  all_goals omega

end

/-! ## Round trip (C1): stream lemmas for the reversed query -/

/-- A parser stream whose final character (the first character of the
forward text) is not whitespace; stripping such a stream only touches its
front. -/
def lastOk (s : Str) : Prop := ∀ c, s.getLast? = some c → isPySpace c = false

/-- A stream with no backslash (the only character that lets the
string-literal regex extend a match past a closing quote). -/
def noBS (s : Str) : Prop := ∀ c, c ∈ s → c ≠ '\\'

theorem lastOk_nil : lastOk [] := by
  intro c h
  simp at h

theorem lastOk_suffix (s t : Str) (h : t <:+ s) (hs : lastOk s) : lastOk t := by
  intro c hc
  obtain ⟨p, hp⟩ := h
  apply hs
  rw [← hp]
  rw [List.getLast?_append_of_ne_nil]
  · exact hc
  · intro he
    rw [he] at hc
    simp at hc

theorem dropWhile_suffix_self (p : Char → Bool) (s : Str) : s.dropWhile p <:+ s := by
  induction s with
  | nil => simp
  | cons c rest ih =>
    rw [List.dropWhile_cons]
    split
    · exact ih.trans (List.suffix_cons c rest)
    · exact List.suffix_refl _

theorem wordCh_not_space (c : Char) (h : isWordCh c = true) : isPySpace c = false := by
  cases hsp : isPySpace c with
  | false => rfl
  | true =>
    exfalso
    simp only [isPySpace, Bool.or_eq_true, decide_eq_true_eq] at hsp
    have hd : c = ' ' ∨ c = '\t' ∨ c = '\n' ∨ c = '\x0d' ∨ c = Char.ofNat 11 ∨
        c = Char.ofNat 12 ∨ c = Char.ofNat 133 ∨ c = Char.ofNat 160 := by tauto
    rcases hd with h1|h1|h1|h1|h1|h1|h1|h1 <;> subst h1 <;> exact absurd h (by decide)

theorem head?_mem (s : Str) (c : Char) (h : s.head? = some c) : c ∈ s := by
  cases s with
  | nil => simp at h
  | cons a t =>
    simp only [List.head?_cons, Option.some.injEq] at h
    subst h
    simp

theorem getLast?_mem (s : Str) (c : Char) (h : s.getLast? = some c) : c ∈ s := by
  have h2 : s.reverse.head? = some c := by rw [List.head?_reverse]; exact h
  have := head?_mem s.reverse c h2
  simpa using this

theorem dropWhile_eq_self_of_head (p : Char → Bool) (s : Str)
    (h : ∀ c, s.head? = some c → p c = false) : s.dropWhile p = s := by
  cases s with
  | nil => simp
  | cons c rest =>
    rw [List.dropWhile_cons_of_neg]
    simp [h c rfl]

theorem stripStr_eq_dropWhile (s : Str) (hs : lastOk s) :
    stripStr s = s.dropWhile isPySpace := by
  unfold stripStr
  have hsuf : s.dropWhile isPySpace <:+ s := dropWhile_suffix_self _ s
  have hlast : lastOk (s.dropWhile isPySpace) := lastOk_suffix s _ hsuf hs
  cases hdd : s.dropWhile isPySpace with
  | nil => rfl
  | cons c t =>
    have hl2 : lastOk (c :: t) := by rw [← hdd]; exact hlast
    rw [dropWhile_eq_self_of_head isPySpace (c :: t).reverse]
    · simp
    · intro x hx
      apply hl2
      rw [List.head?_reverse] at hx
      exact hx

theorem getStripped_run (text : Str) (n : Nat) (hs : lastOk text) :
    getStripped text n =
      (text.length - ((text.drop n).dropWhile isPySpace).length,
       (text.drop n).dropWhile isPySpace) := by
  unfold getStripped
  rw [stripStr_eq_dropWhile _ (lastOk_suffix _ _ (List.drop_suffix _ _) hs)]

theorem takeWhile_all_append (p : Char → Bool) (l r : Str) (hl : l.all p = true)
    (hr : ∀ c, r.head? = some c → p c = false) : (l ++ r).takeWhile p = l := by
  induction l with
  | nil =>
    simp only [List.nil_append, List.takeWhile_eq_nil_iff]
    intro hx
    cases r with
    | nil => simp at hx
    | cons c t => simpa using hr c rfl
  | cons a l' ih =>
    simp only [List.all_cons, Bool.and_eq_true] at hl
    rw [List.cons_append, List.takeWhile_cons_of_pos hl.1, ih hl.2]

theorem dropWhile_all_append (p : Char → Bool) (l r : Str) (hl : l.all p = true)
    (hr : ∀ c, r.head? = some c → p c = false) : (l ++ r).dropWhile p = r := by
  induction l with
  | nil =>
    simp only [List.nil_append]
    exact dropWhile_eq_self_of_head p r hr
  | cons a l' ih =>
    simp only [List.all_cons, Bool.and_eq_true] at hl
    rw [List.cons_append, List.dropWhile_cons_of_pos hl.1, ih hl.2]

theorem lastOk_append (a b : Str) (hb : lastOk b) (hab : b = [] → lastOk a) :
    lastOk (a ++ b) := by
  intro c hc
  by_cases hbe : b = []
  · subst hbe
    simp only [List.append_nil] at hc
    exact hab rfl c hc
  · apply hb
    rw [List.getLast?_append_of_ne_nil] at hc
    · exact hc
    · exact hbe

theorem lastOk_cons (c : Char) (rest : Str) (hc : isPySpace c = false)
    (hr : lastOk rest) : lastOk (c :: rest) := by
  have : lastOk [c] := by
    intro x hx
    simp only [List.getLast?_singleton, Option.some.injEq] at hx
    subst hx
    exact hc
  simpa using lastOk_append [c] rest hr (fun _ => this)

theorem lastOk_word_append (w rest : Str) (hw : w.all isWordCh = true)
    (hr : lastOk rest) : lastOk (w.reverse ++ rest) := by
  apply lastOk_append _ _ hr
  intro _
  intro c hc
  have hcm : c ∈ w.reverse := getLast?_mem _ _ hc
  rw [List.mem_reverse] at hcm
  exact wordCh_not_space c (by
    rw [List.all_eq_true] at hw
    exact hw c hcm)

/-- `_get_next_token` on a stream opening with a reversed word-character
run followed by a non-word boundary. -/
theorem nextToken_word (w rest : Str) (hw : w ≠ []) (hwc : w.all isWordCh = true)
    (hb : ∀ c, rest.head? = some c → isWordCh c = false) (hre : lastOk rest) :
    nextToken (w.reverse ++ rest) =
      (w, (w.reverse ++ rest).length - (rest.dropWhile isPySpace).length,
       rest.dropWhile isPySpace) := by
  have hlq : lastOk (w.reverse ++ rest) := lastOk_word_append w rest hwc hre
  have hwr : w.reverse.all isWordCh = true := by simpa using hwc
  have hnos : ∀ c, (w.reverse ++ rest).head? = some c → isPySpace c = false := by
    intro c hc
    rcases hcw : w.reverse with _ | ⟨x, t⟩
    · exact absurd (by simpa using hcw) hw
    · rw [hcw] at hc
      simp only [List.cons_append, List.head?_cons, Option.some.injEq] at hc
      subst hc
      apply wordCh_not_space
      have := hwr
      rw [hcw] at this
      simp only [List.all_cons, Bool.and_eq_true] at this
      exact this.1
  unfold nextToken
  rw [getStripped_run _ _ hlq]
  simp only [List.drop_zero]
  rw [dropWhile_eq_self_of_head _ _ hnos]
  rw [if_neg (by simp [hw])]
  rw [takeWhile_all_append _ _ _ hwr hb]
  rw [if_pos (by simp [hw])]
  rw [getStripped_run _ _ hlq]
  rw [List.drop_left]
  rw [List.reverse_reverse]
  simp

/-- `_get_next_token` on a stream opening with a single non-word,
non-quote, non-space character. -/
theorem nextToken_punct (c : Char) (rest : Str) (hc : isWordCh c = false)
    (hcq : c ≠ '"') (hcs : isPySpace c = false) (hre : lastOk rest) :
    nextToken (c :: rest) =
      ([c], (c :: rest).length - (rest.dropWhile isPySpace).length,
       rest.dropWhile isPySpace) := by
  have hlq : lastOk (c :: rest) := lastOk_cons c rest hcs hre
  have hnos : ∀ x, (c :: rest).head? = some x → isPySpace x = false := by
    intro x hx
    simp only [List.head?_cons, Option.some.injEq] at hx
    subst hx
    exact hcs
  unfold nextToken
  rw [getStripped_run _ _ hlq]
  simp only [List.drop_zero]
  rw [dropWhile_eq_self_of_head _ _ hnos]
  rw [if_neg (by simp)]
  rw [List.takeWhile_cons_of_neg (by simp [hc])]
  rw [if_neg (by simp)]
  split
  next tail heq =>
    exact absurd (by injection heq) hcq
  next =>
    rw [getStripped_run _ _ hlq]
    simp only [List.drop_one, List.tail_cons]
    simp

theorem plainCh_facts (c : Char) (h : plainCh c = true) :
    c ≠ '\\' ∧ c ≠ '"' ∧ exclCh c = false := by
  by_cases hsp : c = ' '
  · subst hsp
    exact ⟨by decide, by decide, by decide⟩
  · simp only [plainCh, Bool.or_eq_true, Bool.and_eq_true, Bool.not_eq_true',
      decide_eq_true_eq, decide_eq_false_iff_not] at h
    rcases h with ⟨⟨⟨⟨⟨h1, h2⟩, h3⟩, h4⟩, h5⟩, h6⟩ | h7
    · have hn : c ≠ '\n' := by
        intro he
        rw [he] at h6
        exact absurd h6 (by decide)
      have hr : c ≠ '\x0d' := by
        intro he
        rw [he] at h6
        exact absurd h6 (by decide)
      refine ⟨h2, h1, ?_⟩
      simp [exclCh, h1, h2, h4, h5, hn, hr]
    · exact absurd h7 hsp

/-- The string-literal regex consumes a plain body and closes exactly at
the final quote when no backslash follows the closing quote. -/
theorem strTokTail_run (body rest : Str) (f : Nat) (hb : body.all plainCh = true)
    (hnb : ∀ c, rest.head? = some c → c ≠ '\\') (hf : body.length + 1 ≤ f) :
    strTokTail f (body ++ '"' :: rest) = some (body.length + 1) := by
  induction body generalizing f with
  | nil =>
    obtain ⟨f', rfl⟩ : ∃ f', f = f' + 1 := ⟨f - 1, by omega⟩
    simp only [List.nil_append]
    unfold strTokTail
    rw [if_neg (by
      cases hre : rest with
      | nil => simp
      | cons r1 rs =>
        simp only [List.head?_cons, Bool.and_eq_true, decide_eq_true_eq, not_and]
        intro hx
        exact absurd (Option.some.inj hx) (hnb r1 (by rw [hre]; simp)))]
    rw [if_neg (by simp)]
    rw [if_neg (by decide)]
    rw [if_pos (by decide)]
    simp
  | cons c body' ih =>
    obtain ⟨f', rfl⟩ : ∃ f', f = f' + 1 := ⟨f - 1, by omega⟩
    simp only [List.all_cons, Bool.and_eq_true] at hb
    obtain ⟨hc, hb'⟩ := hb
    obtain ⟨hc1, hc2, hc3⟩ := plainCh_facts c hc
    rw [List.cons_append]
    unfold strTokTail
    rw [if_neg (by
      simp only [Bool.and_eq_true, decide_eq_true_eq, not_and]
      intro hx
      exfalso
      cases hbo : body' with
      | nil =>
        rw [hbo] at hx
        simp at hx
      | cons b1 bs =>
        rw [hbo] at hx
        simp only [List.cons_append, List.head?_cons, Option.some.injEq] at hx
        have hb1 : plainCh b1 = true := by
          rw [hbo] at hb'
          simp only [List.all_cons, Bool.and_eq_true] at hb'
          exact hb'.1
        exact (plainCh_facts b1 hb1).1 hx)]
    rw [if_neg ?hB]
    case hB =>
      intro hx
      simp only [Bool.and_eq_true, decide_eq_true_eq] at hx
      obtain ⟨⟨hcu, h5⟩, hhex⟩ := hx
      rcases body' with _ | ⟨b1, _ | ⟨b2, _ | ⟨b3, _ | ⟨b4, b5s⟩⟩⟩⟩
      · simp [isHexD] at hhex
      · simp [isHexD] at hhex
      · simp [isHexD] at hhex
      · simp [isHexD] at hhex
      · simp only [List.cons_append, List.drop_succ_cons, List.drop_zero] at h5
        cases hb5 : b5s with
        | nil =>
          rw [hb5] at h5
          simp at h5
        | cons b5 bs5 =>
          rw [hb5] at h5
          simp only [List.cons_append, List.head?_cons, Option.some.injEq] at h5
          rw [hb5] at hb'
          simp only [List.all_cons, Bool.and_eq_true] at hb'
          exact (plainCh_facts b5 hb'.2.2.2.2.1).1 h5
    rw [if_pos (by simp [hc3])]
    rw [ih f' hb' (by simp at hf ⊢; omega)]
    simp

/-- `_get_next_token` on a stream opening with a reversed string literal
whose body is plain. -/
theorem nextToken_string (sf rest : Str) (hb : sf.all plainCh = true)
    (hnb : ∀ c, rest.head? = some c → c ≠ '\\') (hre : lastOk rest) :
    nextToken ('"' :: sf.reverse ++ '"' :: rest) =
      ('"' :: sf ++ ['"'],
       ('"' :: sf.reverse ++ '"' :: rest).length - (rest.dropWhile isPySpace).length,
       rest.dropWhile isPySpace) := by
  have hlq : lastOk ('"' :: sf.reverse ++ '"' :: rest) := by
    rw [show ('"' :: sf.reverse ++ '"' :: rest) = ('"' :: sf.reverse) ++ '"' :: rest by simp]
    apply lastOk_append
    · apply lastOk_cons _ _ (by decide) hre
    · intro h
      simp at h
  have hnos : ∀ x, ('"' :: sf.reverse ++ '"' :: rest).head? = some x → isPySpace x = false := by
    intro x hx
    simp only [List.cons_append, List.head?_cons, Option.some.injEq] at hx
    subst hx
    decide
  unfold nextToken
  rw [getStripped_run _ _ hlq]
  simp only [List.drop_zero]
  rw [dropWhile_eq_self_of_head _ _ hnos]
  rw [if_neg (by simp)]
  rw [List.cons_append, List.takeWhile_cons_of_neg (by decide)]
  rw [if_neg (by simp)]
  have hrun : strTokTail ((sf.reverse ++ '"' :: rest).length + 1) (sf.reverse ++ '"' :: rest) =
      some (sf.reverse.length + 1) := by
    apply strTokTail_run _ _ _ (by simpa using hb) hnb
    simp
  split
  next tail heq =>
    have htail : tail = sf.reverse ++ '"' :: rest := by
      injection heq with h1 h2
      exact h2.symm
    subst htail
    rw [hrun]
    dsimp only
    have hq : ('"' :: (sf.reverse ++ '"' :: rest)) =
        ('"' :: sf.reverse ++ ['"']) ++ rest := by simp
    have hlq2 : lastOk ('"' :: (sf.reverse ++ '"' :: rest)) := by
      simpa using hlq
    rw [getStripped_run _ _ hlq2]
    have hdrop : ('"' :: (sf.reverse ++ '"' :: rest)).drop (sf.reverse.length + 1 + 1) = rest := by
      rw [hq]
      rw [show sf.reverse.length + 1 + 1 = ('"' :: sf.reverse ++ ['"']).length by simp]
      exact List.drop_left _ _
    have htake : ('"' :: (sf.reverse ++ '"' :: rest)).take (sf.reverse.length + 1 + 1) =
        '"' :: sf.reverse ++ ['"'] := by
      rw [hq]
      rw [show sf.reverse.length + 1 + 1 = ('"' :: sf.reverse ++ ['"']).length by simp]
      exact List.take_left _ _
    rw [hdrop, htake]
    simp
  next hne =>
    exact (hne (sf.reverse ++ '"' :: rest) rfl).elim

/-! ### Single parser steps, dispatched on the token kind -/

theorem pp_step_closing (f : Nat) (q closing : Str) (pos : Int)
    (env params : List (Str × PyVal)) (value : PyVal) (waiting : Bool)
    (tok q' : Str) (rem : Nat) (hnt : nextToken q = (tok, rem, q'))
    (hne : tok ≠ []) (hcl : tok = closing) :
    ppLoop (f + 1) q closing pos env params value waiting =
      .ok (params, pos - (rem : Int), q') := by
  simp only [ppLoop]
  rw [hnt]
  dsimp only
  rw [if_neg (by simp [hne])]
  rw [if_pos hcl]

theorem pp_step_comma (f : Nat) (q closing : Str) (pos : Int)
    (env params : List (Str × PyVal)) (value : PyVal)
    (tok q' : Str) (rem : Nat) (hnt : nextToken q = (tok, rem, q'))
    (htok : tok = [',']) (hcl : tok ≠ closing) :
    ppLoop (f + 1) q closing pos env params value true =
      ppLoop f q' closing (pos - (rem : Int)) env params value true := by
  subst htok
  simp only [ppLoop]
  rw [hnt]
  dsimp only
  rw [if_neg (by simp)]
  rw [if_neg hcl]
  rw [if_neg (by decide)]
  rw [if_neg (by decide)]
  rw [if_pos rfl]
  rw [if_neg (by simp)]

theorem pp_step_colon (f : Nat) (q closing : Str) (pos : Int)
    (env params : List (Str × PyVal)) (value : PyVal)
    (tok q' : Str) (rem : Nat) (hnt : nextToken q = (tok, rem, q'))
    (htok : tok = [':']) (hcl : tok ≠ closing) :
    ppLoop (f + 1) q closing pos env params value false =
      ppLoop f q' closing (pos - (rem : Int)) env params value false := by
  subst htok
  simp only [ppLoop]
  rw [hnt]
  dsimp only
  rw [if_neg (by simp)]
  rw [if_neg hcl]
  rw [if_neg (by simp)]
  rw [if_neg (by decide)]
  rw [if_neg (by decide)]
  rw [if_pos rfl]
  rw [if_neg (by simp)]

theorem pp_step_obj (f : Nat) (q closing : Str) (pos : Int)
    (env params : List (Str × PyVal)) (value : PyVal)
    (tok q' : Str) (rem : Nat) (hnt : nextToken q = (tok, rem, q'))
    (htok : tok = [rbrace]) (hcl : tok ≠ closing) :
    ppLoop (f + 1) q closing pos env params value true =
      (match ppLoop f q' [lbrace] (pos - (rem : Int)) env [] .pnone true with
       | .error e => .error e
       | .ok r =>
         match mkGNode [] [] r.1 with
         | .error e => .error e
         | .ok n => ppLoop f r.2.2 closing r.2.1 env params (.pnode n) false) := by
  subst htok
  simp only [ppLoop]
  rw [hnt]
  dsimp only
  rw [if_neg (by simp)]
  rw [if_neg hcl]
  rw [if_pos (by simp)]

/-- A still-waiting quoted-string token: record the (possibly substituted)
value and stop waiting. -/
theorem pp_step_quote (f : Nat) (q closing : Str) (pos : Int)
    (env params : List (Str × PyVal)) (value : PyVal)
    (sf q' : Str) (rem : Nat)
    (hnt : nextToken q = ('"' :: sf ++ ['"'], rem, q'))
    (hcl : ('"' :: sf ++ ['"'] : Str) ≠ closing) :
    ppLoop (f + 1) q closing pos env params value true =
      ppLoop f q' closing (pos - (rem : Int)) env params
        (let v0 := stripQuotes ('"' :: sf ++ ['"'])
         if v0.head? = some '$' then (kwLookup env v0.tail).getD (.pstr [])
         else .pstr v0) false := by
  simp only [ppLoop]
  rw [hnt]
  dsimp only
  rw [if_neg (by simp)]
  rw [if_neg hcl]
  rw [if_neg (by simp)]
  rw [if_neg (by simp [lbrace])]
  rw [if_neg (by simp)]
  rw [if_neg (by simp)]
  rw [if_neg (by simp)]
  rw [if_pos (by simp)]

theorem digit_head_ne (c0 : Char) (t0 : List Char) (x : Char)
    (hc0 : c0.isDigit = true) (hx : x.isDigit = false) : (c0 :: t0 : Str) ≠ [x] := by
  intro h
  simp only [List.cons.injEq] at h
  rw [h.1] at hc0
  rw [hc0] at hx
  exact absurd hx (by simp)

theorem pp_step_numeric (f : Nat) (q closing : Str) (pos : Int)
    (env params : List (Str × PyVal)) (value : PyVal)
    (tok q' : Str) (rem : Nat) (hnt : nextToken q = (tok, rem, q'))
    (hnum : isNumericStr tok = true) (hne : tok ≠ [])
    (hd : ∀ c, c ∈ tok → c.isDigit = true) (hcl : tok ≠ closing) :
    ppLoop (f + 1) q closing pos env params value true =
      ppLoop f q' closing (pos - (rem : Int)) env params (.pint (digitsToNat tok)) false := by
  obtain ⟨c0, t0, rfl⟩ : ∃ c0 t0, tok = c0 :: t0 := by
    cases tok with
    | nil => exact absurd rfl hne
    | cons a b => exact ⟨a, b, rfl⟩
  have hc0 : c0.isDigit = true := hd c0 (by simp)
  simp only [ppLoop]
  rw [hnt]
  dsimp only
  rw [if_neg (by simp)]
  rw [if_neg hcl]
  rw [if_neg (by simp [digit_head_ne c0 t0 rbrace hc0 (by decide)])]
  rw [if_neg (by simp [digit_head_ne c0 t0 lbrace hc0 (by decide),
    digit_head_ne c0 t0 '(' hc0 (by decide), digit_head_ne c0 t0 ')' hc0 (by decide)])]
  rw [if_neg (digit_head_ne c0 t0 ',' hc0 (by decide))]
  rw [if_neg (digit_head_ne c0 t0 ':' hc0 (by decide))]
  rw [if_neg (digit_head_ne c0 t0 '$' hc0 (by decide))]
  rw [if_neg (by
    simp only [List.head?_cons, Bool.true_and, decide_eq_true_eq, Option.some.injEq]
    intro h2
    rw [h2] at hc0
    exact absurd hc0 (by decide))]
  rw [if_pos (by simp [hnum])]

theorem ident_head_ne (c0 : Char) (t0 : List Char) (x : Char)
    (hc0 : (c0.isAlpha || c0 = '_') = true) (hx : (x.isAlpha || x = '_') = false) :
    (c0 :: t0 : Str) ≠ [x] := by
  intro h
  simp only [List.cons.injEq] at h
  rw [h.1] at hc0
  rw [hc0] at hx
  exact absurd hx (by simp)

theorem alpha_not_digit (c : Char) (h : (c.isAlpha || c = '_') = true) :
    c.isDigit = false := by
  rcases Bool.or_eq_true _ _ |>.mp h with h1 | h1
  · simp only [Char.isAlpha, Char.isUpper, Char.isLower, Bool.or_eq_true,
      Bool.and_eq_true, decide_eq_true_eq] at h1
    cases hd : c.isDigit with
    | false => rfl
    | true =>
      exfalso
      simp only [Char.isDigit, Bool.and_eq_true, decide_eq_true_eq] at hd
      rcases h1 with ⟨ha, hb⟩ | ⟨ha, hb⟩ <;>
        exact absurd (UInt32.le_trans ha hd.2) (by decide)
  · simp only [decide_eq_true_eq] at h1
    subst h1
    decide

theorem identStr_shape (tok : Str) (h : isIdentStr tok = true) :
    ∃ c0 t0, tok = c0 :: t0 ∧ (c0.isAlpha || c0 = '_') = true := by
  cases tok with
  | nil => simp [isIdentStr] at h
  | cons a b =>
    refine ⟨a, b, rfl, ?_⟩
    simp only [isIdentStr, Bool.and_eq_true] at h
    simpa using h.1

theorem identStr_not_numeric (tok : Str) (h : isIdentStr tok = true) :
    isNumericStr tok = false := by
  obtain ⟨c0, t0, rfl, hc0⟩ := identStr_shape tok h
  cases hn : isNumericStr (c0 :: t0) with
  | false => rfl
  | true =>
    exfalso
    simp only [isNumericStr, List.all_cons, Bool.and_eq_true] at hn
    rw [alpha_not_digit c0 hc0] at hn
    simp at hn

/-- The value the parser records for a bare identifier token resolved
without an environment lookup. -/
def identVal (tok : Str) : PyVal :=
  if pyEqLit (.pstr tok) ("true".toList) then .pbool true
  else if pyEqLit (.pstr tok) ("false".toList) then .pbool false
  else .penum (enumNameOf (.pstr tok))

theorem pp_step_identval (f : Nat) (q closing : Str) (pos : Int)
    (env params : List (Str × PyVal)) (value : PyVal)
    (tok q' : Str) (rem : Nat) (hnt : nextToken q = (tok, rem, q'))
    (hid : isIdentStr tok = true) (hcl : tok ≠ closing)
    (hq1 : q'.take 1 ≠ ['$']) :
    ppLoop (f + 1) q closing pos env params value true =
      ppLoop f q' closing (pos - (rem : Int)) env params (identVal tok) false := by
  obtain ⟨c0, t0, rfl, hc0⟩ := identStr_shape tok hid
  have hnd : c0.isDigit = false := alpha_not_digit c0 hc0
  simp only [ppLoop]
  rw [hnt]
  dsimp only
  rw [if_neg (by simp)]
  rw [if_neg hcl]
  rw [if_neg (by simp [ident_head_ne c0 t0 rbrace hc0 (by decide)])]
  rw [if_neg (by simp [ident_head_ne c0 t0 lbrace hc0 (by decide),
    ident_head_ne c0 t0 '(' hc0 (by decide), ident_head_ne c0 t0 ')' hc0 (by decide)])]
  rw [if_neg (ident_head_ne c0 t0 ',' hc0 (by decide))]
  rw [if_neg (ident_head_ne c0 t0 ':' hc0 (by decide))]
  rw [if_neg (ident_head_ne c0 t0 '$' hc0 (by decide))]
  rw [if_neg (by
    simp only [List.head?_cons, Bool.true_and, decide_eq_true_eq, Option.some.injEq]
    intro h2
    rw [h2] at hc0
    exact absurd hc0 (by decide))]
  rw [if_neg (by simp [identStr_not_numeric _ hid])]
  rw [if_pos (by simp [hid])]
  rw [if_pos (by simp)]
  rw [if_neg hq1]
  dsimp only
  rfl

theorem pp_step_identkey (f : Nat) (q closing : Str) (pos : Int)
    (env params : List (Str × PyVal)) (value : PyVal)
    (tok q' : Str) (rem : Nat) (hnt : nextToken q = (tok, rem, q'))
    (hid : isIdentStr tok = true) (hcl : tok ≠ closing) :
    ppLoop (f + 1) q closing pos env params value false =
      ppLoop f q' closing (pos - (rem : Int)) env (setParam params tok value) value true := by
  obtain ⟨c0, t0, rfl, hc0⟩ := identStr_shape tok hid
  simp only [ppLoop]
  rw [hnt]
  dsimp only
  rw [if_neg (by simp)]
  rw [if_neg hcl]
  rw [if_neg (by simp)]
  rw [if_neg (by simp [ident_head_ne c0 t0 lbrace hc0 (by decide),
    ident_head_ne c0 t0 '(' hc0 (by decide), ident_head_ne c0 t0 ')' hc0 (by decide)])]
  rw [if_neg (ident_head_ne c0 t0 ',' hc0 (by decide))]
  rw [if_neg (ident_head_ne c0 t0 ':' hc0 (by decide))]
  rw [if_neg (ident_head_ne c0 t0 '$' hc0 (by decide))]
  rw [if_neg (by simp)]
  rw [if_neg (by simp)]
  rw [if_pos (by simp [hid])]
  rw [if_neg (by simp)]

theorem pn_step_rbrace (f : Nat) (q closing : Str) (pos : Int)
    (env : List (Str × PyVal)) (items : List GNode) (params : List (Str × PyVal))
    (nodes : List GNode) (prev : Str)
    (tok q' : Str) (rem : Nat) (hnt : nextToken q = (tok, rem, q'))
    (htok : tok = [rbrace]) (hcl : tok ≠ closing) :
    pnLoop (f + 1) q closing pos env items params nodes prev =
      (match pnLoop f q' [lbrace] (pos - (rem : Int)) env [] [] [] [] with
       | .error e => .error e
       | .ok r => pnLoop f r.2.2 closing r.2.1 env r.1 params nodes [rbrace]) := by
  subst htok
  simp only [pnLoop]
  rw [hnt]
  dsimp only
  rw [if_neg (by simp)]
  rw [if_neg (by decide)]
  rw [if_pos rfl]

theorem pn_step_rparen (f : Nat) (q closing : Str) (pos : Int)
    (env : List (Str × PyVal)) (items : List GNode) (params : List (Str × PyVal))
    (nodes : List GNode) (prev : Str)
    (tok q' : Str) (rem : Nat) (hnt : nextToken q = (tok, rem, q'))
    (htok : tok = [')']) (hcl : tok ≠ closing) :
    pnLoop (f + 1) q closing pos env items params nodes prev =
      (match ppLoop f q' ['('] (pos - (rem : Int)) env [] .pnone true with
       | .error e => .error e
       | .ok r => pnLoop f r.2.2 closing r.2.1 env items r.1 nodes [')']) := by
  subst htok
  simp only [pnLoop]
  rw [hnt]
  dsimp only
  rw [if_neg (by simp)]
  rw [if_neg (by decide)]
  rw [if_neg (by decide)]
  rw [if_pos rfl]

theorem pn_step_closing (f : Nat) (q closing : Str) (pos : Int)
    (env : List (Str × PyVal)) (items : List GNode) (params : List (Str × PyVal))
    (nodes : List GNode) (prev : Str)
    (tok q' : Str) (rem : Nat) (hnt : nextToken q = (tok, rem, q'))
    (hne : tok ≠ []) (hcl : tok = closing)
    (hc1 : tok ≠ [',']) (hc2 : tok ≠ [rbrace]) (hc3 : tok ≠ [')']) :
    pnLoop (f + 1) q closing pos env items params nodes prev =
      .ok (nodes, pos - (rem : Int), q') := by
  simp only [pnLoop]
  rw [hnt]
  dsimp only
  rw [if_neg (by simp [hne])]
  rw [if_neg hc1]
  rw [if_neg hc2]
  rw [if_neg hc3]
  rw [if_pos hcl]

theorem pn_step_ident_plain (f : Nat) (q closing : Str) (pos : Int)
    (env : List (Str × PyVal)) (items : List GNode) (params : List (Str × PyVal))
    (nodes : List GNode) (prev : Str)
    (tok q' : Str) (rem : Nat) (hnt : nextToken q = (tok, rem, q'))
    (hid : isIdentStr tok = true) (hcl : tok ≠ closing)
    (hq1 : q'.take 1 ≠ [':']) :
    pnLoop (f + 1) q closing pos env items params nodes prev =
      (match mkGNode tok (items.map (fun g => AddArg.item (.inode g))) params with
       | .error e => .error e
       | .ok n => pnLoop f q' closing (pos - (rem : Int)) env [] [] (n :: nodes) tok) := by
  obtain ⟨c0, t0, rfl, hc0⟩ := identStr_shape tok hid
  simp only [pnLoop]
  rw [hnt]
  dsimp only
  rw [if_neg (by simp)]
  rw [if_neg (ident_head_ne c0 t0 ',' hc0 (by decide))]
  rw [if_neg (ident_head_ne c0 t0 rbrace hc0 (by decide))]
  rw [if_neg (ident_head_ne c0 t0 ')' hc0 (by decide))]
  rw [if_neg hcl]
  rw [if_neg (by simp [ident_head_ne c0 t0 lbrace hc0 (by decide),
    ident_head_ne c0 t0 '(' hc0 (by decide)])]
  rw [if_pos (by simp [hid])]
  rw [if_neg hq1]

theorem pn_step_ident_alias (f : Nat) (q closing : Str) (pos : Int)
    (env : List (Str × PyVal)) (items : List GNode) (params : List (Str × PyVal))
    (nodes : List GNode) (prev : Str)
    (tok q' : Str) (rem : Nat) (hnt : nextToken q = (tok, rem, q'))
    (hid : isIdentStr tok = true) (hcl : tok ≠ closing)
    (hq1 : q'.take 1 = [':'])
    (tok2 q3 : Str) (rem3 : Nat)
    (hnt2 : nextToken (getStripped q' 1).2 = (tok2, rem3, q3))
    (htok2 : tok2 ≠ []) :
    pnLoop (f + 1) q closing pos env items params nodes prev =
      (match mkGNode (tok2 ++ ':' :: ' ' :: tok)
          (items.map (fun g => AddArg.item (.inode g))) params with
       | .error e => .error e
       | .ok n => pnLoop f q3 closing (pos - (rem : Int) - ((getStripped q' 1).1 : Int)) env
           [] [] (n :: nodes) (tok2 ++ ':' :: ' ' :: tok)) := by
  obtain ⟨c0, t0, rfl, hc0⟩ := identStr_shape tok hid
  simp only [pnLoop]
  rw [hnt]
  dsimp only
  rw [if_neg (by simp)]
  rw [if_neg (ident_head_ne c0 t0 ',' hc0 (by decide))]
  rw [if_neg (ident_head_ne c0 t0 rbrace hc0 (by decide))]
  rw [if_neg (ident_head_ne c0 t0 ')' hc0 (by decide))]
  rw [if_neg hcl]
  rw [if_neg (by simp [ident_head_ne c0 t0 lbrace hc0 (by decide),
    ident_head_ne c0 t0 '(' hc0 (by decide)])]
  rw [if_pos (by simp [hid])]
  rw [if_pos hq1]
  rw [hnt2]
  dsimp only
  rw [if_neg (by simp [htok2])]

theorem pn_step_done (f : Nat) (q : Str) (pos : Int)
    (env : List (Str × PyVal)) (nodes : List GNode) (prev : Str)
    (q' : Str) (rem : Nat) (hnt : nextToken q = ([], rem, q')) :
    pnLoop (f + 1) q [] pos env [] [] nodes prev = .ok (nodes, pos, q') := by
  simp only [pnLoop]
  rw [hnt]
  dsimp only
  rw [if_pos (by simp)]
  rw [if_neg (by simp)]
  rw [if_neg (by simp)]

/-! ### Constructor success on parsed arguments -/

theorem identStr_word (s : Str) (h : isIdentStr s = true) : s.all isWordCh = true := by
  cases s with
  | nil => simp [isIdentStr] at h
  | cons c rest =>
    simp only [isIdentStr, Bool.and_eq_true] at h
    simp only [List.all_cons, Bool.and_eq_true]
    constructor
    · have h1 := h.1
      simp only [Bool.or_eq_true, decide_eq_true_eq] at h1
      rcases h1 with h1 | h1
      · simp [isWordCh, Char.isAlphanum, h1]
      · subst h1
        decide
    · rw [List.all_eq_true]
      intro c2 hc2
      have h2 := h.2
      rw [List.all_eq_true] at h2
      have h3 := h2 c2 hc2
      simp only [Bool.or_eq_true, decide_eq_true_eq] at h3
      rcases h3 with h1 | h1
      · simp [isWordCh, h1]
      · subst h1
        decide

theorem stripStr_of_nospace (s : Str) (h : ∀ c ∈ s, isPySpace c = false) :
    stripStr s = s := by
  have h1 : lastOk s := by
    intro c hc
    exact h c (getLast?_mem s c hc)
  rw [stripStr_eq_dropWhile s h1]
  apply dropWhile_eq_self_of_head
  intro c hc
  exact h c (head?_mem s c hc)

theorem identStr_nospace (s : Str) (h : isIdentStr s = true) :
    ∀ c ∈ s, isPySpace c = false := by
  intro c hc
  have hw := identStr_word s h
  rw [List.all_eq_true] at hw
  exact wordCh_not_space c (hw c hc)

theorem stripStr_ident (s : Str) (h : isIdentStr s = true) : stripStr s = s :=
  stripStr_of_nospace s (identStr_nospace s h)

theorem stripStr_space_cons (s : Str) : stripStr (' ' :: s) = stripStr s := by
  unfold stripStr
  rw [List.dropWhile_cons_of_pos (by decide)]

theorem splitCh_no_sep (sep : Char) (s : Str) (h : ∀ c ∈ s, c ≠ sep) :
    splitCh sep s = [s] := by
  induction s with
  | nil => rfl
  | cons c rest ih =>
    simp only [splitCh]
    rw [ih (fun c2 hc2 => h c2 (by simp [hc2]))]
    dsimp only
    rw [if_neg (h c (by simp))]

theorem splitCh_append (sep : Char) (a b : Str) (h : ∀ c ∈ a, c ≠ sep) :
    splitCh sep (a ++ sep :: b) = a :: splitCh sep b := by
  induction a with
  | nil =>
    simp only [List.nil_append, splitCh]
    cases hb : splitCh sep b with
    | nil => exact absurd hb (splitCh_ne_nil sep b)
    | cons x t => simp
  | cons c rest ih =>
    simp only [List.cons_append, splitCh]
    rw [show rest.append (sep :: b) = rest ++ sep :: b from rfl]
    rw [ih (fun c2 hc2 => h c2 (by simp [hc2]))]
    dsimp only
    rw [if_neg (h c (by simp))]

theorem identStr_no_colon (s : Str) (h : isIdentStr s = true) :
    ∀ c ∈ s, c ≠ ':' := by
  intro c hc he
  have hw := identStr_word s h
  rw [List.all_eq_true] at hw
  have := hw c hc
  rw [he] at this
  exact absurd this (by decide)

/-- `GraphQLNode('')` as issued for nested-object argument values. -/
theorem initFields_empty : initFields [] none =
    .ok (.mk [] [] [] [] false false none none []) := rfl

/-- `GraphQLNode(name)` on a plain identifier. -/
theorem initFields_ident (nm : Str) (h : isIdentStr nm = true) :
    initFields nm none = .ok (.mk nm [] [] [] false false none none []) := by
  unfold initFields
  rw [splitCh_no_sep ':' nm (identStr_no_colon nm h)]
  simp only [List.map_cons, List.map_nil, stripStr_ident nm h]
  rw [if_neg (by simp [h])]
  rfl

/-- `GraphQLNode('alias: name')` on identifier alias and name. -/
theorem initFields_alias (al nm : Str) (hal : isIdentStr al = true)
    (hnm : isIdentStr nm = true) :
    initFields (al ++ ':' :: ' ' :: nm) none =
      .ok (.mk nm al [] [] false false none none []) := by
  unfold initFields
  rw [splitCh_append ':' al (' ' :: nm) (identStr_no_colon al hal)]
  rw [splitCh_no_sep ':' (' ' :: nm) (by
    intro c hc
    rcases List.mem_cons.mp hc with h1 | h1
    · subst h1; decide
    · exact identStr_no_colon nm hnm c h1)]
  simp only [List.map_cons, List.map_nil, stripStr_ident al hal, stripStr_space_cons,
    stripStr_ident nm hnm]
  rw [if_neg (by simp [hnm])]
  simp

theorem goodKey_head (k : Str) (h : goodKey k = true) :
    ∃ c0 t0, k = c0 :: t0 ∧ (c0 = '_') = false := by
  cases k with
  | nil => simp [goodKey, isIdentStr] at h
  | cons c t =>
    simp only [goodKey, Bool.and_eq_true] at h
    exact ⟨c, t, rfl, by simpa using h.2⟩

theorem kwLookup_underscore (kwargs : List (Str × PyVal))
    (hk : ∀ p ∈ kwargs, goodKey p.1 = true) (s0 : Str) (c1 : Char) (t1 : Str)
    (hs0 : s0 = c1 :: t1) (hc1 : c1 = '_') : kwLookup kwargs s0 = none := by
  induction kwargs with
  | nil => rfl
  | cons p rest ih =>
    have hp := hk p (by simp)
    obtain ⟨c0, t0, hpk, hc0⟩ := goodKey_head p.1 hp
    unfold kwLookup
    rw [List.find?_cons_of_neg]
    · exact ih (fun p2 hp2 => hk p2 (by simp [hp2]))
    · simp only [hpk, hs0, hc1]
      simp only [beq_iff_eq, List.cons.injEq, not_and]
      intro he
      rw [he] at hc0
      simp at hc0

theorem kwargs_filter_good (kwargs : List (Str × PyVal)) (p0 : Str × PyVal → Bool)
    (hk : ∀ p ∈ kwargs, goodKey p.1 = true) :
    ∀ p ∈ kwargs.filter p0, goodKey p.1 = true := by
  intro p hp
  exact hk p (List.mem_of_mem_filter hp)

/-- The plain-parameter loop always succeeds when `_valid_params` is unset,
touching only the parameter map. -/
theorem paramsLoop_ok (kw : List (Str × PyVal)) (nm al : Str)
    (ps : List (Str × PyVal)) (its : List Item) (nu co : Bool) (vi : Option PyVal)
    (gp : Str) :
    ∃ ps2, paramsLoop (.mk nm al ps its nu co none vi gp) kw =
      .ok (.mk nm al ps2 its nu co none vi gp) := by
  induction kw generalizing ps with
  | nil => exact ⟨ps, rfl⟩
  | cons p rest ih =>
    obtain ⟨i, v⟩ := p
    simp only [paramsLoop]
    dsimp only [GNode.validParams, GNode.gidPath, GNode.params, GNode.withParams]
    rw [if_neg (by simp)]
    exact ih _

theorem dropIt_inode_ok (items : List Item) (g : GNode) :
    ∃ l, dropIt items (.inode g) = .ok l := by
  unfold dropIt
  split
  · exact ⟨_, rfl⟩
  · exact ⟨_, rfl⟩

/-- The item loop always succeeds when `_valid_items` is unset and every
argument is a node child, touching only the item list. -/
theorem addItemsLoop_ok (args : List AddArg)
    (hargs : ∀ a ∈ args, ∃ g, a = AddArg.item (.inode g)) (nm al : Str)
    (ps : List (Str × PyVal)) (its : List Item) (co : Bool) (gp : Str) :
    ∃ its2, addItemsLoop (.mk nm al ps its false co none none gp) args =
      .ok (.mk nm al ps its2 false co none none gp) := by
  induction args generalizing its with
  | nil => exact ⟨its, rfl⟩
  | cons a rest ih =>
    obtain ⟨g, rfl⟩ := hargs a (by simp)
    simp only [addItemsLoop]
    dsimp only [GNode.validItems, GNode.items, GNode.withItems]
    obtain ⟨l, hl⟩ := dropIt_inode_ok its g
    unfold dropThenAppend
    rw [hl]
    dsimp only
    exact ih (fun a2 ha2 => hargs a2 (by simp [ha2])) _

/-- `_add_params` succeeds on well-formed plain keys: the special keywords
are all absent, so only `_gid_path` is reset and the plain loop runs. -/
theorem addParamsCore_ok (kwargs : List (Str × PyVal))
    (hk : ∀ p ∈ kwargs, goodKey p.1 = true) (nm al : Str)
    (ps : List (Str × PyVal)) (its : List Item) (co : Bool) (gp : Str) :
    ∃ ps2, addParamsCore (.mk nm al ps its false co none none gp) kwargs =
      .ok (.mk nm al ps2 its false co none none []) := by
  unfold addParamsCore
  rw [kwLookup_underscore kwargs hk (("_node").toList) '_' (("node").toList) rfl rfl]
  rw [kwLookup_underscore kwargs hk (("_valid_params").toList) '_' (("valid_params").toList) rfl rfl]
  rw [kwLookup_underscore kwargs hk (("_valid_items").toList) '_' (("valid_items").toList) rfl rfl]
  rw [kwLookup_underscore kwargs hk (("_gid_path").toList) '_' (("gid_path").toList) rfl rfl]
  dsimp only [GNode.withGidPath]
  exact paramsLoop_ok _ nm al ps its false co none []

/-- `GraphQLNode(name, *args, **kwargs)` succeeds whenever the name is
accepted by the constructor, every positional argument is a node child and
every keyword is a plain non-underscore identifier; the resulting node
keeps the constructor's name and alias. -/
theorem mkGNode_ok (nmArg : Str) (args : List AddArg) (kwargs : List (Str × PyVal))
    (hk : ∀ p ∈ kwargs, goodKey p.1 = true)
    (hargs : ∀ a ∈ args, ∃ g, a = AddArg.item (.inode g))
    (bn bal : Str)
    (hi : initFields nmArg none = .ok (.mk bn bal [] [] false false none none [])) :
    ∃ n, mkGNode nmArg args kwargs = .ok n ∧ n.nm = bn ∧ n.al = bal := by
  unfold mkGNode
  rw [kwLookup_underscore kwargs hk (("_alias").toList) '_' (("alias").toList) rfl rfl]
  rw [hi]
  have hk2 : ∀ p ∈ kwRemove kwargs (("_alias").toList), goodKey p.1 = true :=
    kwargs_filter_good kwargs _ hk
  unfold addNode
  dsimp only [GNode.constant]
  rw [if_neg (by simp)]
  by_cases hke : (kwRemove kwargs (("_alias").toList)).isEmpty
  · rw [if_pos (by simpa using hke)]
    dsimp only
    by_cases hae : args.isEmpty
    · rw [if_pos (by simpa using hae)]
      exact ⟨_, rfl, rfl, rfl⟩
    · rw [if_neg (by simpa using hae)]
      have hcore : addItemsCore (.mk bn bal [] [] false false none none []) args =
          addItemsLoop (.mk bn bal [] [] false false none none []) args := rfl
      rw [hcore]
      obtain ⟨its2, h2⟩ := addItemsLoop_ok args hargs bn bal [] [] false []
      rw [h2]
      exact ⟨_, rfl, rfl, rfl⟩
  · rw [if_neg (by simpa using hke)]
    obtain ⟨ps2, h1⟩ := addParamsCore_ok _ hk2 bn bal [] [] false []
    rw [h1]
    dsimp only
    by_cases hae : args.isEmpty
    · rw [if_pos (by simpa using hae)]
      exact ⟨_, rfl, rfl, rfl⟩
    · rw [if_neg (by simpa using hae)]
      have hcore : addItemsCore (.mk bn bal ps2 [] false false none none []) args =
          addItemsLoop (.mk bn bal ps2 [] false false none none []) args := rfl
      rw [hcore]
      obtain ⟨its2, h2⟩ := addItemsLoop_ok args hargs bn bal ps2 [] false []
      rw [h2]
      exact ⟨_, rfl, rfl, rfl⟩

/-! ### The compact text and its edge characters -/

/-- The canonical compact text of a node (`repr`, and after sanitizing also
what the pretty mode yields). -/
def nodeTextC (n : GNode) : Str := joinS [' '] (flatL n 0 2)

/-- The compact text of a child list. -/
def itemsTextC (its : List Item) : Str := joinS [' '] (flatI its 0 2)

theorem joinS_head (sep : Str) (l : Str) (t : List Str) (hl : l ≠ []) :
    (joinS sep (l :: t)).head? = l.head? := by
  cases t with
  | nil => rfl
  | cons x t2 =>
    simp only [joinS]
    rw [List.append_assoc]
    rw [List.head?_append_of_ne_nil _ hl]

theorem joinS_last (sep : Str) (ls : List Str) (z : Str) (hz : z ≠ []) :
    (joinS sep (ls ++ [z])).getLast? = z.getLast? := by
  cases ls with
  | nil => rfl
  | cons x t =>
    rw [joinS_append sep (x :: t) [z] (by simp) (by simp)]
    rw [show joinS sep [z] = z from rfl]
    rw [List.getLast?_append_of_ne_nil]
    exact hz

theorem flatI_append (a b : List Item) (ind size : Int) :
    flatI (a ++ b) ind size = flatI a ind size ++ flatI b ind size := by
  induction a with
  | nil => rfl
  | cons it rest ih =>
    cases it with
    | istr s => simp [flatI, ih]
    | inode c => simp [flatI, ih]

theorem flatI_ne_nil (its : List Item) (h : its ≠ []) (ind size : Int) :
    flatI its ind size ≠ [] := by
  cases its with
  | nil => exact absurd rfl h
  | cons it rest =>
    cases it with
    | istr s => simp [flatI]
    | inode c => simp [flatI, flatL_ne_nil]

theorem joinS_splitCh (sep : Char) (s : Str) : joinS [sep] (splitCh sep s) = s := by
  induction s with
  | nil => rfl
  | cons c rest ih =>
    simp only [splitCh]
    cases hs : splitCh sep rest with
    | nil => exact absurd hs (splitCh_ne_nil sep rest)
    | cons h t =>
      rw [hs] at ih
      dsimp only
      by_cases hc : c = sep
      · rw [if_pos hc]
        rw [joinS_cons_ne [sep] [] (h :: t) (by simp)]
        rw [ih, hc]
        simp
      · rw [if_neg hc]
        cases t with
        | nil =>
          simp only [joinS] at ih ⊢
          rw [ih]
        | cons y t2 =>
          rw [joinS_cons_ne [sep] (c :: h) (y :: t2) (by simp)]
          rw [joinS_cons_ne [sep] h (y :: t2) (by simp)] at ih
          rw [← ih]
          simp

theorem natDigitsGo_digits (f m : Nat) : (natDigitsGo f m).all Char.isDigit = true := by
  induction f generalizing m with
  | zero => rfl
  | succ f' ih =>
    unfold natDigitsGo
    split
    · rename_i hm
      have : (Char.ofNat (48 + m)).isDigit = true := by
        interval_cases m <;> decide
      simp [this]
    · have h10 : m % 10 < 10 := Nat.mod_lt _ (by norm_num)
      have : (Char.ofNat (48 + m % 10)).isDigit = true := by
        interval_cases h : m % 10 <;> decide
      simp [List.all_append, ih, this]

theorem natDigitsGo_ne_nil (f m : Nat) : natDigitsGo (f + 1) m ≠ [] := by
  unfold natDigitsGo
  split <;> simp

theorem natDigits_numeric (m : Nat) : isNumericStr (natDigits m) = true := by
  unfold natDigits isNumericStr
  cases hd : natDigitsGo (m + 1) m with
  | nil => exact absurd hd (natDigitsGo_ne_nil m m)
  | cons c t =>
    show (c :: t).all Char.isDigit = true
    rw [← hd]
    exact natDigitsGo_digits (m + 1) m

theorem digit_word (c : Char) (h : c.isDigit = true) : isWordCh c = true := by
  simp [isWordCh, Char.isAlphanum, h]

theorem natDigits_word (m : Nat) : (natDigits m).all isWordCh = true := by
  have := natDigitsGo_digits (m + 1) m
  rw [List.all_eq_true] at this ⊢
  exact fun c hc => digit_word c (this c hc)

theorem natDigits_ne_nil (m : Nat) : natDigits m ≠ [] := natDigitsGo_ne_nil m m

theorem goodParams_mem (ps : List (Str × PyVal)) (h : goodParams ps = true) :
    ∀ p ∈ ps, goodKey p.1 = true ∧ goodVal p.2 = true := by
  induction ps with
  | nil => simp
  | cons p rest ih =>
    obtain ⟨k, v⟩ := p
    simp only [goodParams, Bool.and_eq_true] at h
    intro p2 hp2
    rcases List.mem_cons.mp hp2 with h1 | h1
    · subst h1
      exact ⟨h.1.1, h.1.2⟩
    · exact ih h.2 p2 h1

theorem goodParams_append (a b : List (Str × PyVal)) :
    goodParams (a ++ b) = (goodParams a && goodParams b) := by
  induction a with
  | nil => simp [goodParams]
  | cons p rest ih =>
    obtain ⟨k, v⟩ := p
    simp [goodParams, ih, Bool.and_assoc]

theorem goodItems_append (a b : List Item) :
    goodItems (a ++ b) = (goodItems a && goodItems b) := by
  induction a with
  | nil => simp [goodItems]
  | cons it rest ih => simp [goodItems, ih, Bool.and_assoc]

theorem paramsSize_append (a b : List (Str × PyVal)) :
    paramsSize (a ++ b) = paramsSize a + paramsSize b := by
  induction a with
  | nil => simp [paramsSize]
  | cons p rest ih =>
    obtain ⟨k, v⟩ := p
    simp [paramsSize, ih]
    omega

theorem itemsSize_append (a b : List Item) :
    itemsSize (a ++ b) = itemsSize a + itemsSize b := by
  induction a with
  | nil => simp [itemsSize]
  | cons it rest ih =>
    cases it <;> (simp [itemsSize, ih]; omega)

theorem paramsToStr_snoc (init : List (Str × PyVal)) (k : Str) (v : PyVal)
    (h : init ≠ []) :
    paramsToStr (init ++ [(k, v)]) =
      paramsToStr init ++ ',' :: ' ' :: (k ++ ':' :: ' ' :: paramRep v) := by
  induction init with
  | nil => exact absurd rfl h
  | cons p rest ih =>
    obtain ⟨k0, v0⟩ := p
    cases rest with
    | nil => simp [paramsToStr]
    | cons q rest2 =>
      rw [show ((k0, v0) :: q :: rest2) ++ [(k, v)] = (k0, v0) :: (q :: rest2 ++ [(k, v)]) from rfl]
      rw [show (q :: rest2) ++ [(k, v)] = q :: (rest2 ++ [(k, v)]) from rfl]
      simp only [paramsToStr]
      rw [show q :: (rest2 ++ [(k, v)]) = (q :: rest2) ++ [(k, v)] from rfl]
      rw [ih (by simp)]
      simp

theorem paramRep_ne_nil (v : PyVal) (h : goodVal v = true) : paramRep v ≠ [] := by
  cases v with
  | pstr s => simp [paramRep]
  | pint n =>
    simp only [paramRep, intToStr]
    rw [if_neg (by
      simp only [goodVal, decide_eq_true_eq] at h
      omega)]
    exact natDigits_ne_nil _
  | pbool b => cases b <;> simp [paramRep]
  | penum s =>
    simp only [goodVal] at h
    obtain ⟨c0, t0, rfl, _⟩ := identStr_shape s h
    simp [paramRep]
  | pnode n => cases n with | mk nm al ps its nu co vp vi gp => simp [paramRep]
  | plist xs => simp [goodVal] at h
  | pnone => simp [goodVal] at h

theorem paramRep_last (v : PyVal) (h : goodVal v = true) :
    ∀ c, (paramRep v).getLast? = some c → isPySpace c = false := by
  intro c hc
  cases v with
  | pstr s =>
    simp only [paramRep] at hc
    rw [List.getLast?_concat] at hc
    have hce : c = '"' := by simpa using hc.symm
    subst hce
    decide
  | pint n =>
    simp only [paramRep, intToStr] at hc
    rw [if_neg (by
      simp only [goodVal, decide_eq_true_eq] at h
      omega)] at hc
    have hd := natDigits_word n.toNat
    rw [List.all_eq_true] at hd
    exact wordCh_not_space c (hd c (getLast?_mem _ _ hc))
  | pbool b =>
    cases b with
    | true =>
      simp only [paramRep, if_pos] at hc
      rw [show (("true").toList) = ['t', 'r', 'u', 'e'] from rfl] at hc
      simp at hc
      subst hc
      decide
    | false =>
      simp only [paramRep] at hc
      rw [show (("false").toList) = ['f', 'a', 'l', 's', 'e'] from rfl] at hc
      simp at hc
      subst hc
      decide
  | penum s =>
    simp only [goodVal] at h
    have hw := identStr_word s h
    rw [List.all_eq_true] at hw
    exact wordCh_not_space c (hw c (getLast?_mem _ _ (by simpa [paramRep] using hc)))
  | pnode n =>
    cases n with
    | mk nm al ps its nu co vp vi gp =>
      simp only [paramRep] at hc
      rw [List.getLast?_append_of_ne_nil _ (by simp : ([' ', rbrace] : Str) ≠ [])] at hc
      have hce : c = rbrace := by simpa using hc.symm
      subst hce
      decide
  | plist xs => simp [goodVal] at h
  | pnone => simp [goodVal] at h

theorem paramsToStr_last (ps : List (Str × PyVal)) (h : goodParams ps = true)
    (hne : ps ≠ []) :
    ∀ c, (paramsToStr ps).getLast? = some c → isPySpace c = false := by
  intro c hc
  obtain ⟨init, k, v, rfl⟩ : ∃ init k v, ps = init ++ [(k, v)] := by
    refine ⟨ps.dropLast, (ps.getLast hne).1, (ps.getLast hne).2, ?_⟩
    exact (List.dropLast_append_getLast hne).symm
  have hgv : goodVal v = true := by
    have := goodParams_mem _ h (k, v) (by simp)
    exact this.2
  have hrep : ∀ c2, (k ++ ':' :: ' ' :: paramRep v).getLast? = some c2 →
      isPySpace c2 = false := by
    intro c2 hc2
    rw [show (k ++ ':' :: ' ' :: paramRep v : Str) = k ++ [':', ' '] ++ paramRep v
      from by simp] at hc2
    rw [List.getLast?_append_of_ne_nil _ (paramRep_ne_nil v hgv)] at hc2
    exact paramRep_last v hgv c2 hc2
  cases hin : init with
  | nil =>
    rw [hin] at hc
    simp only [List.nil_append, paramsToStr] at hc
    exact hrep c hc
  | cons p0 t0 =>
    rw [paramsToStr_snoc init k v (by simp [hin])] at hc
    rw [show (paramsToStr init ++ ',' :: ' ' :: (k ++ ':' :: ' ' :: paramRep v) : Str) =
        paramsToStr init ++ [',', ' '] ++ (k ++ ':' :: ' ' :: paramRep v) from by simp] at hc
    rw [List.getLast?_append_of_ne_nil _ (by simp)] at hc
    exact hrep c hc

/-- The header fields of the compact rendering. -/
def fld0 (nm al : Str) : Str := if al ≠ [] then al ++ ':' :: ' ' :: nm else nm

def fld1 (nm al : Str) (ps : List (Str × PyVal)) : Str :=
  if !ps.isEmpty then fld0 nm al ++ '(' :: paramsToStr ps ++ [')'] else fld0 nm al

/-- Compact text of one child. -/
def childTextC : Item → Str
  | .istr s => s
  | .inode c => nodeTextC c

theorem spacesN_neg2 : spacesN (0 - 2) = [] := rfl

theorem spacesN_zero : spacesN 0 = [] := rfl

theorem nodeTextC_leaf (nm al : Str) (ps : List (Str × PyVal)) (nu co : Bool)
    (vp vi : Option PyVal) (gp : Str) :
    nodeTextC (.mk nm al ps [] nu co vp vi gp) = fld1 nm al ps := by
  unfold nodeTextC flatL
  dsimp only
  rw [if_neg (by simp)]
  rw [spacesN_neg2]
  simp only [List.nil_append]
  rfl

theorem nodeTextC_block (nm al : Str) (ps : List (Str × PyVal)) (its : List Item)
    (nu co : Bool) (vp vi : Option PyVal) (gp : Str) (hits : its ≠ []) :
    nodeTextC (.mk nm al ps its nu co vp vi gp) =
      fld1 nm al ps ++ [' ', lbrace, ' '] ++ itemsTextC its ++ [' ', rbrace] := by
  unfold nodeTextC flatL
  dsimp only
  rw [if_pos (by simp [hits])]
  rw [spacesN_neg2]
  simp only [List.nil_append]
  rw [joinS_cons_ne [' '] _ _ (by simp)]
  rw [joinS_append [' '] _ _ (flatI_ne_nil its hits 0 2) (by simp)]
  rw [show joinS [' '] [[rbrace]] = [rbrace] from rfl]
  show (fld1 nm al ps ++ ' ' :: [lbrace]) ++ [' '] ++ (itemsTextC its ++ [' '] ++ [rbrace]) = _
  simp
theorem itemsTextC_single (it : Item) : itemsTextC [it] = childTextC it := by
  cases it with
  | istr s => rfl
  | inode c =>
    unfold itemsTextC flatI childTextC
    dsimp only
    rw [if_neg (by decide)]
    rw [show flatI [] 0 2 = [] from rfl]
    rw [List.append_nil]
    rfl

theorem itemsTextC_snoc (init : List Item) (it : Item) (h : init ≠ []) :
    itemsTextC (init ++ [it]) = itemsTextC init ++ ' ' :: childTextC it := by
  unfold itemsTextC
  rw [flatI_append]
  rw [joinS_append [' '] _ _ (flatI_ne_nil init h 0 2) (flatI_ne_nil [it] (by simp) 0 2)]
  rw [show joinS [' '] (flatI [it] 0 2) = itemsTextC [it] from rfl]
  rw [itemsTextC_single]
  simp

theorem fld0_ne_nil (nm al : Str) (hnm : isIdentStr nm = true) : fld0 nm al ≠ [] := by
  obtain ⟨c0, t0, rfl, _⟩ := identStr_shape nm hnm
  unfold fld0
  split <;> simp

theorem fld0_head (nm al : Str) (hnm : isIdentStr nm = true)
    (hal : (al.isEmpty || isIdentStr al) = true) :
    ∀ c, (fld0 nm al).head? = some c → isWordCh c = true := by
  intro c hc
  unfold fld0 at hc
  split at hc
  · rename_i hne
    have hida : isIdentStr al = true := by
      rcases Bool.or_eq_true _ _ |>.mp hal with h1 | h1
      · exact absurd (by simpa using h1) hne
      · exact h1
    obtain ⟨a0, t0, rfl, _⟩ := identStr_shape al hida
    simp only [List.cons_append, List.head?_cons, Option.some.injEq] at hc
    subst hc
    have := identStr_word _ hida
    simp only [List.all_cons, Bool.and_eq_true] at this
    exact this.1
  · obtain ⟨a0, t0, rfl, _⟩ := identStr_shape nm hnm
    simp only [List.head?_cons, Option.some.injEq] at hc
    subst hc
    have := identStr_word _ hnm
    simp only [List.all_cons, Bool.and_eq_true] at this
    exact this.1

theorem fld0_last (nm al : Str) (hnm : isIdentStr nm = true) :
    ∀ c, (fld0 nm al).getLast? = some c → isWordCh c = true := by
  intro c hc
  unfold fld0 at hc
  have hnml : ∀ c2, nm.getLast? = some c2 → isWordCh c2 = true := by
    intro c2 hc2
    have := identStr_word _ hnm
    rw [List.all_eq_true] at this
    exact this c2 (getLast?_mem _ _ hc2)
  split at hc
  · rw [show (al ++ ':' :: ' ' :: nm : Str) = al ++ [':', ' '] ++ nm from by simp] at hc
    rw [List.getLast?_append_of_ne_nil _ (by
      obtain ⟨c0, t0, rfl, _⟩ := identStr_shape nm hnm
      simp)] at hc
    exact hnml c hc
  · exact hnml c hc

theorem fld1_ne_nil (nm al : Str) (ps : List (Str × PyVal))
    (hnm : isIdentStr nm = true) : fld1 nm al ps ≠ [] := by
  unfold fld1
  split
  · simp
  · exact fld0_ne_nil nm al hnm

theorem fld1_head (nm al : Str) (ps : List (Str × PyVal)) (hnm : isIdentStr nm = true)
    (hal : (al.isEmpty || isIdentStr al) = true) :
    ∀ c, (fld1 nm al ps).head? = some c → isWordCh c = true := by
  intro c hc
  unfold fld1 at hc
  split at hc
  · rw [List.head?_append_of_ne_nil _ (by simp)] at hc
    rw [List.head?_append_of_ne_nil _ (fld0_ne_nil nm al hnm)] at hc
    exact fld0_head nm al hnm hal c hc
  · exact fld0_head nm al hnm hal c hc

theorem fld1_last (nm al : Str) (ps : List (Str × PyVal)) (hnm : isIdentStr nm = true) :
    ∀ c, (fld1 nm al ps).getLast? = some c → isPySpace c = false ∧ c ≠ ':' := by
  intro c hc
  unfold fld1 at hc
  split at hc
  · rw [show (fld0 nm al ++ '(' :: paramsToStr ps ++ [')'] : Str) =
        (fld0 nm al ++ '(' :: paramsToStr ps) ++ [')'] from by simp] at hc
    rw [List.getLast?_concat] at hc
    have hce : c = ')' := by simpa using hc.symm
    subst hce
    exact ⟨by decide, by decide⟩
  · have hw := fld0_last nm al hnm c hc
    refine ⟨wordCh_not_space c hw, ?_⟩
    intro he
    rw [he] at hw
    exact absurd hw (by decide)

theorem nodeTextC_ne_nil (n : GNode) (h : goodNode n = true) : nodeTextC n ≠ [] := by
  cases n with
  | mk nm al ps its nu co vp vi gp =>
    unfold goodNode at h
    simp only [Bool.and_eq_true] at h
    have hnm := h.1.1.1.1
    cases hits : its with
    | nil =>
      rw [nodeTextC_leaf]
      exact fld1_ne_nil nm al ps hnm
    | cons i0 t0 =>
      rw [nodeTextC_block nm al ps (i0 :: t0) nu co vp vi gp (by simp)]
      simp

theorem nodeTextC_head (n : GNode) (h : goodNode n = true) :
    ∀ c, (nodeTextC n).head? = some c → isWordCh c = true := by
  cases n with
  | mk nm al ps its nu co vp vi gp =>
    unfold goodNode at h
    simp only [Bool.and_eq_true] at h
    have hnm := h.1.1.1.1
    have hal := h.1.1.1.2
    intro c hc
    cases hits : its with
    | nil =>
      rw [hits, nodeTextC_leaf] at hc
      exact fld1_head nm al ps hnm hal c hc
    | cons i0 t0 =>
      rw [hits, nodeTextC_block nm al ps (i0 :: t0) nu co vp vi gp (by simp)] at hc
      rw [List.head?_append_of_ne_nil _ (by simp)] at hc
      rw [List.head?_append_of_ne_nil _ (by simp)] at hc
      rw [List.head?_append_of_ne_nil _ (fld1_ne_nil nm al ps hnm)] at hc
      exact fld1_head nm al ps hnm hal c hc

theorem nodeTextC_last (n : GNode) (h : goodNode n = true) :
    ∀ c, (nodeTextC n).getLast? = some c → isPySpace c = false ∧ c ≠ ':' := by
  cases n with
  | mk nm al ps its nu co vp vi gp =>
    unfold goodNode at h
    simp only [Bool.and_eq_true] at h
    have hnm := h.1.1.1.1
    intro c hc
    cases hits : its with
    | nil =>
      rw [hits, nodeTextC_leaf] at hc
      exact fld1_last nm al ps hnm c hc
    | cons i0 t0 =>
      rw [hits, nodeTextC_block nm al ps (i0 :: t0) nu co vp vi gp (by simp)] at hc
      rw [show (fld1 nm al ps ++ [' ', lbrace, ' '] ++ itemsTextC (i0 :: t0) ++ [' ', rbrace] : Str) =
          (fld1 nm al ps ++ [' ', lbrace, ' '] ++ itemsTextC (i0 :: t0) ++ [' ']) ++ [rbrace]
        from by simp] at hc
      rw [List.getLast?_concat] at hc
      have hce : c = rbrace := by simpa using hc.symm
      subst hce
      exact ⟨by decide, by decide⟩

theorem goodItem_istr_cases (s : Str) (h : goodItem (.istr s) = true) :
    isIdentStr s = true ∨
      ∃ a n, s = a ++ ':' :: ' ' :: n ∧ isIdentStr a = true ∧ isIdentStr n = true := by
  unfold goodItem at h
  rcases Bool.or_eq_true _ _ |>.mp h with h1 | h1
  · exact Or.inl h1
  · right
    rcases hs : splitCh ':' s with _ | ⟨a, _ | ⟨b, _ | ⟨x, t⟩⟩⟩ <;> rw [hs] at h1
    · simp at h1
    · simp at h1
    · simp only [Bool.and_eq_true] at h1
      obtain ⟨ha, hb⟩ := h1
      split at hb
      · rename_i n
        refine ⟨a, n, ?_, ha, hb⟩
        have hrec := joinS_splitCh ':' s
        rw [hs] at hrec
        rw [← hrec]
        simp [joinS]
      · simp at hb
    · simp at h1

theorem childTextC_ne_nil (it : Item) (h : goodItem it = true) : childTextC it ≠ [] := by
  cases it with
  | istr s =>
    rcases goodItem_istr_cases s h with h1 | ⟨a, n, rfl, ha, hn⟩
    · obtain ⟨c0, t0, rfl, _⟩ := identStr_shape s h1
      simp [childTextC]
    · obtain ⟨c0, t0, rfl, _⟩ := identStr_shape a ha
      simp [childTextC]
  | inode c => exact nodeTextC_ne_nil c h

theorem childTextC_head (it : Item) (h : goodItem it = true) :
    ∀ c, (childTextC it).head? = some c → isWordCh c = true := by
  intro c hc
  cases it with
  | istr s =>
    rcases goodItem_istr_cases s h with h1 | ⟨a, n, hsp, ha, hn⟩
    · have := identStr_word s h1
      rw [List.all_eq_true] at this
      exact this c (head?_mem _ _ hc)
    · simp only [childTextC] at hc
      rw [hsp] at hc
      obtain ⟨c0, t0, rfl, _⟩ := identStr_shape a ha
      simp only [List.cons_append, List.head?_cons, Option.some.injEq] at hc
      subst hc
      have := identStr_word _ ha
      simp only [List.all_cons, Bool.and_eq_true] at this
      exact this.1
  | inode cn => exact nodeTextC_head cn h c hc

theorem childTextC_last (it : Item) (h : goodItem it = true) :
    ∀ c, (childTextC it).getLast? = some c → isPySpace c = false ∧ c ≠ ':' := by
  intro c hc
  have hword : ∀ (w : Str), isIdentStr w = true → w.getLast? = some c →
      isPySpace c = false ∧ c ≠ ':' := by
    intro w hw hcw
    have h2 := identStr_word w hw
    rw [List.all_eq_true] at h2
    have h3 := h2 c (getLast?_mem _ _ hcw)
    refine ⟨wordCh_not_space c h3, ?_⟩
    intro he
    rw [he] at h3
    exact absurd h3 (by decide)
  cases it with
  | istr s =>
    rcases goodItem_istr_cases s h with h1 | ⟨a, n, hsp, ha, hn⟩
    · exact hword s h1 hc
    · simp only [childTextC] at hc
      rw [hsp] at hc
      rw [show (a ++ ':' :: ' ' :: n : Str) = a ++ [':', ' '] ++ n from by simp] at hc
      rw [List.getLast?_append_of_ne_nil _ (by
        obtain ⟨c0, t0, rfl, _⟩ := identStr_shape n hn
        simp)] at hc
      exact hword n hn hc
  | inode cn => exact nodeTextC_last cn h c hc
